import Mathlib

/-!
# pkg/middlewares/logging.go — request/response logging middleware

A shallow embedding of the body-capturing stream wrappers (`bodyWriter`, `bodyReader`), the
header extraction functions (`extractRequestHeaders`, `extractResponseHeaders`) and
`LoggingMiddleware` itself, followed by the properties proved about them.

Modelling conventions.

* Go `int` is the 64-bit type of 64-bit platforms.  The byte counters `bytes`, running sums over
  the whole life of a wrapper, wrap around like the Go counters do (`wrapInt`).  The other
  `int` values the wrappers compute are a length of an in-memory byte sequence, the sum of two
  such lengths, or the difference of the cap and such a length; they are mathematical integers
  (`Int`), since none of them can leave the 64-bit range on a real machine.
* A Go `[]byte` is a `Slice`: its visible elements together with the spare capacity behind them, so
  that the slice expression `b[:k]` has its Go meaning (legal for `0 ≤ k ≤ cap(b)`, a run-time
  panic otherwise).
* A `*bytes.Buffer` that is only ever written to is the list of bytes written so far; a nil
  pointer is `none`.
* The wrapped `gin.ResponseWriter` / `io.ReadCloser` is an arbitrary state `σ` together with an
  arbitrary transition function for its `Write` / `Read` method.
* A run-time panic is an explicit outcome of a call.
* The handlers downstream of the middleware (`c.Next()`) are the sequence of actions they
  perform on the request: reads and writes through the wrappers, changes of the response headers
  and status, recorded errors, log events of their own.
* A log event is the record handed to the logger: level, message, the attributes bound to the
  logger and the attributes of the call; whether the logger's handler prints it is not modelled.
-/

namespace Middlewares

/-! ## Byte slices and buffers -/

abbrev Byte := UInt8

/-- Go `[]byte`: `elems` are the `len` visible bytes, `spare` the bytes of the backing array
between `len` and `cap`. -/
structure Slice where
  elems : List Byte
  spare : List Byte
  deriving DecidableEq, Repr

namespace Slice

/-- Slice with no spare capacity. -/
def ofList (l : List Byte) : Slice := ⟨l, []⟩

/-- Go `len(b)`. -/
def len (b : Slice) : Int := b.elems.length

/-- Go `cap(b)`. -/
def cap (b : Slice) : Int := b.elems.length + b.spare.length

/-- Go slice expression `b[:k]`: `none` is the run-time panic "slice bounds out of range",
raised unless `0 ≤ k ≤ cap(b)`. -/
def upTo (b : Slice) (k : Int) : Option Slice :=
  if 0 ≤ k ∧ k ≤ b.cap then
    some ⟨(b.elems ++ b.spare).take k.toNat, (b.elems ++ b.spare).drop k.toNat⟩
  else
    none

end Slice

/-- Write-only view of `bytes.Buffer`: the bytes written so far. -/
structure Buffer where
  data : List Byte
  deriving DecidableEq, Repr

namespace Buffer

/-- Go `bytes.NewBufferString(s)`. -/
def NewBufferString (s : List Byte) : Buffer := ⟨s⟩

/-- Go `(*bytes.Buffer).Len`. -/
def Len (buf : Buffer) : Int := buf.data.length

/-- Go `(*bytes.Buffer).Write`: appends the visible bytes of `p`. -/
def Write (buf : Buffer) (p : Slice) : Buffer := ⟨buf.data ++ p.elems⟩

/-- Go `(*bytes.Buffer).String`, as bytes. -/
def String (buf : Buffer) : List Byte := buf.data

end Buffer

/-- Outcome of a wrapper call: it returns normally with the wrapper's new state and the call's
results, or it panics, leaving the wrapper in the given state. -/
inductive Outcome (S R : Type) where
  | ok (state : S) (result : R)
  | panic (state : S)
  deriving DecidableEq, Repr

/-- Go `int` arithmetic on a 64-bit platform: the value an `int` holds after an addition whose
mathematical result is `x`, wrapped around into `[-2^63, 2^63)`. -/
def wrapInt (x : Int) : Int :=
  (x + 9223372036854775808) % 18446744073709551616 - 9223372036854775808

/-! ## bodyWriter -/

/-- Go `type bodyWriter struct`; the embedded `gin.ResponseWriter` is its state `σ`. -/
structure bodyWriter (σ : Type) where
  ResponseWriter : σ
  body : Option Buffer
  maxSize : Int
  bytes : Int
  deriving DecidableEq, Repr

/-- Go `func (w *bodyWriter) Write(b []byte) (int, error)`.
`write` is the `Write` method of the embedded `gin.ResponseWriter`. -/
def bodyWriter.Write {σ ε : Type} (write : σ → Slice → σ × Int × Option ε)
    (w : bodyWriter σ) (b : Slice) : Outcome (bodyWriter σ) (Int × Option ε) :=
  let captured : Option (Option Buffer) :=
    match w.body with
    | none => some none
    | some body =>
      if body.Len + b.len > w.maxSize then
        (b.upTo (w.maxSize - body.Len)).map (fun p => some (body.Write p))
      else
        some (some (body.Write b))
  match captured with
  | none => .panic w
  | some body =>
    let bytes := wrapInt (w.bytes + b.len)
    let (rw, n, err) := write w.ResponseWriter b
    .ok { ResponseWriter := rw, body := body, maxSize := w.maxSize, bytes := bytes } (n, err)

/-- Go `func newBodyWriter(writer gin.ResponseWriter, maxSize int, recordBody bool) *bodyWriter`. -/
def newBodyWriter {σ : Type} (writer : σ) (maxSize : Int) (recordBody : Bool) : bodyWriter σ :=
  let body : Option Buffer := if recordBody then some (Buffer.NewBufferString []) else none
  { ResponseWriter := writer, body := body, maxSize := maxSize, bytes := 0 }

/-! ## bodyReader -/

/-- Go `type bodyReader struct`; the embedded `io.ReadCloser` is its state `ρ`. -/
structure bodyReader (ρ : Type) where
  ReadCloser : ρ
  body : Option Buffer
  maxSize : Int
  bytes : Int
  deriving DecidableEq, Repr

/-- Go `func (r *bodyReader) Read(b []byte) (int, error)`.
`read` is the `Read` method of the embedded `io.ReadCloser`: from its state and the caller's
buffer it gives its new state, the buffer as the call leaves it, the count and the error.  The
buffer as left by the call is part of the result, since the caller observes it. -/
def bodyReader.Read {ρ ε : Type} (read : ρ → Slice → ρ × Slice × Int × Option ε)
    (r : bodyReader ρ) (b : Slice) : Outcome (bodyReader ρ) (Slice × Int × Option ε) :=
  let (rc, b, n, err) := read r.ReadCloser b
  let captured : Option (Option Buffer) :=
    match r.body with
    | none => some none
    | some body =>
      if body.Len + n > r.maxSize then
        (b.upTo (r.maxSize - body.Len)).map (fun p => some (body.Write p))
      else
        (b.upTo n).map (fun p => some (body.Write p))
  match captured with
  | none => .panic { r with ReadCloser := rc }
  | some body =>
    .ok { ReadCloser := rc, body := body, maxSize := r.maxSize, bytes := wrapInt (r.bytes + n) }
      (b, n, err)

/-- Go `func newBodyReader(reader io.ReadCloser, maxSize int, recordBody bool) *bodyReader`. -/
def newBodyReader {ρ : Type} (reader : ρ) (maxSize : Int) (recordBody : Bool) : bodyReader ρ :=
  let body : Option Buffer := if recordBody then some (Buffer.NewBufferString []) else none
  { ReadCloser := reader, body := body, maxSize := maxSize, bytes := 0 }

/-! ## Headers -/

/-- Go `http.Header` (`map[string][]string`): the key/value pairs of the map, listed in the order
in which one `range` over the map visits them.  The keys of a map are pairwise distinct. -/
abbrev Header := List (String × List String)

/-- Go `slog.Attr` holding a header: the result of `slog.Any(key, value)`. -/
structure Attr where
  Key : String
  Value : List String
  deriving DecidableEq, Repr

/-- Go `slog.Any(key, value)`. -/
def slogAny (key : String) (value : List String) : Attr := ⟨key, value⟩

/-- Go `unicode.ToLower`, as far as it decides equality with an ASCII name: `A`–`Z` go to
`a`–`z`, and the only two other code points whose lower case is an ASCII letter, U+0130 and
U+212A, go to `i` and `k`.  Every other non-ASCII letter is left as it is; Go maps it to a
non-ASCII letter, so the result differs from every ASCII name either way. -/
def toLowerRune (c : Char) : Char :=
  if c.toNat = 0x130 then 'i'
  else if c.toNat = 0x212A then 'k'
  else c.toLower

/-- Go `strings.ToLower` on a header name (see `toLowerRune`). -/
def ToLower (s : String) : String := String.mk (s.data.map toLowerRune)

/-- Go `var HiddenRequestHeaders = map[string]struct{}{…}`: its keys. -/
def HiddenRequestHeaders : List String :=
  ["authorization", "cookie", "set-cookie", "x-auth-token", "x-csrf-token", "x-xsrf-token"]

/-- Go `var HiddenResponseHeaders = map[string]struct{}{…}`: its keys. -/
def HiddenResponseHeaders : List String := ["set-cookie"]

/-- Go `func extractRequestHeaders(c *gin.Context) []any`, as a function of `c.Request.Header`. -/
def extractRequestHeaders (header : Header) : List Attr :=
  header.foldl
    (fun headers kv =>
      if ToLower kv.1 ∈ HiddenRequestHeaders then headers
      else headers ++ [slogAny kv.1 kv.2])
    []

/-- Go `func extractResponseHeaders(c *gin.Context) []any`, as a function of
`c.Writer.Header()`. -/
def extractResponseHeaders (header : Header) : List Attr :=
  header.foldl
    (fun headers kv =>
      if ToLower kv.1 ∈ HiddenResponseHeaders then headers
      else headers ++ [slogAny kv.1 kv.2])
    []

/-- The header set formed by a list of logged header attributes. -/
def headerOf (attrs : List Attr) : Header := attrs.map (fun a => (a.Key, a.Value))

/-! ## Request id -/

/-- Go `constants.HeaderRequestIDKey`. -/
def HeaderRequestIDKey : String := "X-Request-Id"

/-- Go `textproto.validHeaderFieldByte`: the token characters of RFC 7230. -/
def validHeaderFieldByte (c : Char) : Bool :=
  c.isAlphanum || [33, 35, 36, 37, 38, 39, 42, 43, 45, 46, 94, 95, 96, 124, 126].contains c.toNat

/-- The canonicalising loop of Go `textproto.canonicalMIMEHeaderKey`: upper case for the first
letter and for a letter after a dash, lower case elsewhere. -/
def canonicalLetters : Bool → List Char → List Char
  | _, [] => []
  | upper, c :: cs =>
    let c1 := if upper && c.isLower then c.toUpper
      else if !upper && c.isUpper then c.toLower
      else c
    c1 :: canonicalLetters (c1 == '-') cs

/-- Go `textproto.CanonicalMIMEHeaderKey`: a key with a character that is no token character is
returned unchanged. -/
def CanonicalMIMEHeaderKey (s : String) : String :=
  if s.data.all validHeaderFieldByte then String.mk (canonicalLetters true s.data) else s

/-- Go `http.Header.Get`: the first value stored under the canonical form of `key`, or `""`. -/
def Header.Get (h : Header) (key : String) : String :=
  match h.lookup (CanonicalMIMEHeaderKey key) with
  | some (v :: _) => v
  | _ => ""

/-- Go `http.Header.Set`: the canonical form of `key` is bound to the single value `value`. -/
def Header.Set (h : Header) (key value : String) : Header :=
  let k := CanonicalMIMEHeaderKey key
  if h.any (fun kv => kv.1 == k) then
    h.map (fun kv => if kv.1 == k then (k, [value]) else kv)
  else
    h ++ [(k, [value])]

/-- Go `http.Header.Del`. -/
def Header.Del (h : Header) (key : String) : Header :=
  h.filter (fun kv => !(kv.1 == CanonicalMIMEHeaderKey key))

/-- Go `func (c *gin.Context) GetHeader(key string) string`, on `c.Request.Header`. -/
def GetHeader (requestHeader : Header) (key : String) : String :=
  requestHeader.Get key

/-- Go `func (c *gin.Context) Header(key, value string)`, on `c.Writer.Header()`: an empty value
deletes the header. -/
def ginHeader (responseHeader : Header) (key value : String) : Header :=
  if value == "" then responseHeader.Del key else responseHeader.Set key value

/-- Lines 61–65 of `LoggingMiddleware`: the resolution of the request id.
`uuidNew` stands for `uuid.New().String()`: from the state of the random generator it gives the
identifier and the state the generator is left in.  The result is the request id, the response
header map and the generator state after these lines. -/
def LoggingMiddleware.requestID {γ : Type} (uuidNew : γ → String × γ) (gen : γ)
    (requestHeader responseHeader : Header) : String × Header × γ :=
  let requestID := GetHeader requestHeader HeaderRequestIDKey
  if requestID == "" then
    let (requestID, gen) := uuidNew gen
    (requestID, ginHeader responseHeader HeaderRequestIDKey requestID, gen)
  else
    (requestID, responseHeader, gen)

/-- Generator that hands out the identifiers of a list one after the other. -/
def listUUID : List String → String × List String
  | [] => ("00000000-0000-4000-8000-000000000000", [])
  | u :: us => (u, us)

/-! ## Sequences of calls -/

/-- The calls `Write(c1), …, Write(ck)` made directly on the sink: its final state and the
`(count, error)` pair of every call. -/
def sinkWrites {σ ε : Type} (write : σ → Slice → σ × Int × Option ε) :
    σ → List Slice → σ × List (Int × Option ε)
  | s, [] => (s, [])
  | s, c :: cs =>
    let (s1, n, err) := write s c
    let (s2, rs) := sinkWrites write s1 cs
    (s2, (n, err) :: rs)

/-- The calls `w.Write(c1), …, w.Write(ck)` made one after the other on a `bodyWriter`; a panic
ends the sequence. -/
def bodyWriter.Writes {σ ε : Type} (write : σ → Slice → σ × Int × Option ε) :
    bodyWriter σ → List Slice → Outcome (bodyWriter σ) (List (Int × Option ε))
  | w, [] => .ok w []
  | w, c :: cs =>
    match bodyWriter.Write write w c with
    | .panic w1 => .panic w1
    | .ok w1 r =>
      match bodyWriter.Writes write w1 cs with
      | .panic w2 => .panic w2
      | .ok w2 rs => .ok w2 (r :: rs)

/-- The calls `Read(b1), …, Read(bk)` made directly on the source: its final state and, for every
call, the buffer as the call left it, the count and the error. -/
def sourceReads {ρ ε : Type} (read : ρ → Slice → ρ × Slice × Int × Option ε) :
    ρ → List Slice → ρ × List (Slice × Int × Option ε)
  | s, [] => (s, [])
  | s, b :: bs =>
    let (s1, b1, n, err) := read s b
    let (s2, rs) := sourceReads read s1 bs
    (s2, (b1, n, err) :: rs)

/-- The calls `r.Read(b1), …, r.Read(bk)` made one after the other on a `bodyReader`; a panic ends
the sequence. -/
def bodyReader.Reads {ρ ε : Type} (read : ρ → Slice → ρ × Slice × Int × Option ε) :
    bodyReader ρ → List Slice → Outcome (bodyReader ρ) (List (Slice × Int × Option ε))
  | r, [] => .ok r []
  | r, b :: bs =>
    match bodyReader.Read read r b with
    | .panic r1 => .panic r1
    | .ok r1 o =>
      match bodyReader.Reads read r1 bs with
      | .panic r2 => .panic r2
      | .ok r2 os => .ok r2 (o :: os)

/-- Bytes a read call delivered: the first `n` bytes of the buffer as the call left it. -/
def delivered {ε : Type} (o : Slice × Int × Option ε) : List Byte :=
  o.1.elems.take o.2.1.toNat

/-- Bytes of a sequence of chunks, in order. -/
def chunkBytes (cs : List Slice) : List Byte := (cs.map Slice.elems).flatten

/-- Total length of a sequence of chunks. -/
def chunkLen (cs : List Slice) : Int := (cs.map Slice.len).sum

/-- Bytes delivered by a sequence of read calls, in order. -/
def readBytes {ε : Type} (os : List (Slice × Int × Option ε)) : List Byte :=
  (os.map delivered).flatten

/-- Sum of the counts returned by a sequence of read calls. -/
def readLen {ε : Type} (os : List (Slice × Int × Option ε)) : Int :=
  (os.map (fun o => o.2.1)).sum

/-- Sum of the counts returned by a sequence of write calls. -/
def writtenLen {ε : Type} (rs : List (Int × Option ε)) : Int :=
  (rs.map (fun r => r.1)).sum

/-- The counter after the additions `+= n1`, …, `+= nk`, each wrapping around, from the value
`start`. -/
def wrapSum (start : Int) : List Int → Int
  | [] => start
  | n :: ns => wrapSum (wrapInt (start + n)) ns

/-- State of the wrapper after a call or sequence of calls, whether it returned or panicked. -/
def Outcome.after {S R : Type} : Outcome S R → S
  | .ok s _ => s
  | .panic s => s

/-- The capture buffer, when there is one, is no longer than the cap. -/
def withinCap (body : Option Buffer) (maxSize : Int) : Prop :=
  ∀ buf, body = some buf → buf.Len ≤ maxSize

/-- Sink that accepts every chunk in full and keeps what it was given. -/
def fullSink : List Byte → Slice → List Byte × Int × Option String :=
  fun s b => (s ++ b.elems, b.len, none)

/-- Sink that accepts at most one byte of a chunk and reports a short write otherwise. -/
def shortSink : List Byte → Slice → List Byte × Int × Option String :=
  fun s b =>
    if b.elems.length ≤ 1 then (s ++ b.elems, b.len, none)
    else (s ++ b.elems.take 1, 1, some "short write")

/-- Source holding the bytes still to be read: a call copies as many as fit into the buffer and
reports end-of-stream together with the last bytes. -/
def bytesSource : List Byte → Slice → List Byte × Slice × Int × Option String :=
  fun s b =>
    let k := min s.length b.elems.length
    (s.drop k, ⟨s.take k ++ b.elems.drop k, b.spare⟩, (k : Int),
      if s.length ≤ b.elems.length then some "EOF" else none)

/-! ## LoggingMiddleware -/

/-- Go `constants.LogRequestIDKey`. -/
def LogRequestIDKey : String := "req_id"

/-- Go `slog.LevelInfo`. -/
def LevelInfo : Int := 0

/-- Go `slog.LevelWarn`. -/
def LevelWarn : Int := 4

/-- Go `slog.LevelError`. -/
def LevelError : Int := 8

/-- Go `http.StatusBadRequest`. -/
def StatusBadRequest : Int := 400

/-- Go `http.StatusInternalServerError`. -/
def StatusInternalServerError : Int := 500

/-- Go `var RequestBodyMaxSize = 64 * 1024`: the value the package variable starts with. -/
def RequestBodyMaxSize : Int := 64 * 1024

/-- Go `var ResponseBodyMaxSize = 64 * 1024`: the value the package variable starts with. -/
def ResponseBodyMaxSize : Int := 64 * 1024

/-- Attribute inside the `request` / `response` group, by the `slog` constructor that builds
it; times and durations are integers (nanoseconds). -/
inductive Field where
  | time (key : String) (value : Int)
  | string (key : String) (value : String)
  | duration (key : String) (value : Int)
  | int (key : String) (value : Int)
  | params (key : String) (value : List (String × String))
  | headers (key : String) (value : List Attr)
  | body (key : String) (value : List Byte)
  deriving DecidableEq, Repr

/-- Top-level `slog.Attr` of the middleware: `slog.String` or `slog.Group`. -/
inductive LogAttr where
  | string (key : String) (value : String)
  | group (key : String) (fields : List Field)
  deriving DecidableEq, Repr

/-- Log event handed to the logger's handler: level, message, the attributes bound to the logger
by `With`, and the attributes of the call. -/
structure Record where
  Level : Int
  Message : String
  bound : List LogAttr
  attrs : List LogAttr
  deriving DecidableEq, Repr

/-- Go `*slog.Logger`, as far as the middleware uses it: the attributes bound by `With`. -/
structure Logger where
  bound : List LogAttr
  deriving DecidableEq, Repr

/-- Go `(*slog.Logger).With`. -/
def Logger.With (l : Logger) (a : LogAttr) : Logger := ⟨l.bound ++ [a]⟩

/-- Go `(*slog.Logger).LogAttrs`: the event emitted. -/
def Logger.LogAttrs (l : Logger) (level : Int) (msg : String) (attrs : List LogAttr) : Record :=
  ⟨level, msg, l.bound, attrs⟩

/-- Go `(*bytes.Buffer).String` through a pointer that may be nil. -/
def bodyString : Option Buffer → List Byte
  | some buf => buf.String
  | none => "<nil>".toUTF8.toList

/-- Go `m[k] = v` on a `map[string]string`. -/
def mapSet (m : List (String × String)) (k v : String) : List (String × String) :=
  if m.any (fun kv => kv.1 == k) then
    m.map (fun kv => if kv.1 == k then (k, v) else kv)
  else
    m ++ [(k, v)]

/-- The parts of `*http.Request` and `*gin.Context` the middleware reads before the handler
runs; `FullPath` and `ClientIP` are the results of `c.FullPath()` and `c.ClientIP()`, `Params` is
`c.Params`. -/
structure Request where
  Path : String
  RawQuery : String
  Method : String
  Host : String
  FullPath : String
  ClientIP : String
  Params : List (String × String)
  Header : Header
  deriving DecidableEq, Repr

/-- State of one request while it is served: the wrapped body streams, the response header map
(`c.Writer.Header()`), the response status (`c.Writer.Status()`), the errors recorded on the
context (`c.Errors`), the identifier generator and the log events emitted so far. -/
structure Exchange (ρ σ γ : Type) where
  br : bodyReader ρ
  bw : bodyWriter σ
  responseHeader : Header
  status : Int
  errors : List String
  gen : γ
  log : List Record
  deriving DecidableEq

/-- What the downstream handlers can do to the request while `c.Next()` runs: read the request
body and write the response body through the wrappers, call another method of the embedded
stream (promoted unchanged through the wrapper), change the response headers or the status,
record an error, emit a log event of their own. -/
inductive Op (ρ σ : Type) where
  | read (b : Slice)
  | write (b : Slice)
  | source (f : ρ → ρ)
  | sink (f : σ → σ)
  | header (f : Header → Header)
  | status (code : Int)
  | error (msg : String)
  | log (r : Record)

/-- One action of the downstream handlers. -/
def Op.run {ρ σ γ ε : Type} (read : ρ → Slice → ρ × Slice × Int × Option ε)
    (write : σ → Slice → σ × Int × Option ε) (x : Exchange ρ σ γ) :
    Op ρ σ → Outcome (Exchange ρ σ γ) Unit
  | .read b =>
    match bodyReader.Read read x.br b with
    | .ok r _ => .ok { x with br := r } ()
    | .panic r => .panic { x with br := r }
  | .write b =>
    match bodyWriter.Write write x.bw b with
    | .ok w _ => .ok { x with bw := w } ()
    | .panic w => .panic { x with bw := w }
  | .source f => .ok { x with br := { x.br with ReadCloser := f x.br.ReadCloser } } ()
  | .sink f => .ok { x with bw := { x.bw with ResponseWriter := f x.bw.ResponseWriter } } ()
  | .header f => .ok { x with responseHeader := f x.responseHeader } ()
  | .status code => .ok { x with status := code } ()
  | .error msg => .ok { x with errors := x.errors ++ [msg] } ()
  | .log r => .ok { x with log := x.log ++ [r] } ()

/-- Go `c.Next()`: the downstream handlers run, here as the sequence of their actions; a panic
ends the run. -/
def Next {ρ σ γ ε : Type} (read : ρ → Slice → ρ × Slice × Int × Option ε)
    (write : σ → Slice → σ × Int × Option ε) :
    Exchange ρ σ γ → List (Op ρ σ) → Outcome (Exchange ρ σ γ) Unit
  | x, [] => .ok x ()
  | x, op :: ops =>
    match op.run read write x with
    | .panic y => .panic y
    | .ok y _ => Next read write y ops

/-- Go `func LoggingMiddleware() gin.HandlerFunc`: the handler function it returns, run on one
request.

Parameters standing for the surroundings: `read` / `write` / `uuidNew` are the `Read` method of
the request body, the `Write` method of the response writer and `uuid.New().String()`;
`ErrorsString` is `c.Errors.String()` as a function of the recorded errors; `maxRequest` and
`maxResponse` are the values of the package variables `RequestBodyMaxSize` and
`ResponseBodyMaxSize`; `logger` is the result of `logging.Get(c)`; `start` and `finish` are the two
readings of `time.Now()`; `status`, `errors`, `responseHeader` are the state of the context when
the middleware is entered; `next` is what the downstream handlers do. -/
def LoggingMiddleware {ρ σ γ ε : Type} (read : ρ → Slice → ρ × Slice × Int × Option ε)
    (write : σ → Slice → σ × Int × Option ε) (uuidNew : γ → String × γ)
    (ErrorsString : List String → String) (maxRequest maxResponse : Int)
    (logger : Logger) (start finish : Int) (request : Request) (body : ρ) (writer : σ)
    (responseHeader : Header) (status : Int) (errors : List String) (gen : γ)
    (next : List (Op ρ σ)) : Outcome (Exchange ρ σ γ) Unit :=
  let level := LevelInfo
  let path := request.Path
  let query := request.RawQuery
  let method := request.Method
  let host := request.Host
  let route := request.FullPath
  let ip := request.ClientIP
  let referer := request.Header.Get "Referer"
  let userAgent := request.Header.Get "User-Agent"
  let params := request.Params.foldl (fun m p => mapSet m p.1 p.2) []
  let br := newBodyReader body maxRequest true
  let bw := newBodyWriter writer maxResponse true
  let (requestID, responseHeader, gen) :=
    LoggingMiddleware.requestID uuidNew gen request.Header responseHeader
  let requestAttributes : List Field := [
    .time "time" start,
    .string "path" path,
    .string "query" query,
    .string "method" method,
    .string "host" host,
    .string "route" route,
    .string "ip" ip,
    .string "referer" referer,
    .string "user-agent" userAgent,
    .params "params" params,
    .headers "headers" (extractRequestHeaders request.Header),
    .body "body" (bodyString br.body)]
  let attributes : List LogAttr := [
    .string LogRequestIDKey requestID,
    .group "request" requestAttributes]
  let incoming := logger.LogAttrs level "Incoming request" attributes
  let logger := logger.With (.string "req_id" requestID)
  -- `c.Set(ContextLoggerKey, logger)` only stores the logger for the handlers, whose own log
  -- events are the `log` actions of `next`.
  match Next read write
      { br := br, bw := bw, responseHeader := responseHeader, status := status,
        errors := errors, gen := gen, log := [incoming] } next with
  | .panic x => .panic x
  | .ok x _ =>
    let status := x.status
    let latency := finish - start
    let responseAttributes : List Field := [
      .time "time" finish,
      .duration "latency" latency,
      .int "status" status,
      .headers "headers" (extractResponseHeaders x.responseHeader),
      .body "body" (bodyString x.bw.body)]
    let attributes : List LogAttr := [.group "response" responseAttributes]
    let msg := "Request completed"
    let (level, msg) :=
      if status ≥ StatusBadRequest ∧ status < StatusInternalServerError then
        (LevelWarn, "Request failed with error: " ++ ErrorsString x.errors)
      else if status ≥ StatusInternalServerError then
        (LevelError, "Request failed with error: " ++ ErrorsString x.errors)
      else
        (level, msg)
    .ok { x with log := x.log ++ [logger.LogAttrs level msg attributes] } ()

/-- Log events the downstream handlers emit themselves, in order. -/
def handlerLog {ρ σ : Type} : List (Op ρ σ) → List Record
  | [] => []
  | .log r :: ops => r :: handlerLog ops
  | _ :: ops => handlerLog ops

/-- The `body` attribute of the group `group` of a log event, when it has one. -/
def Record.body (r : Record) (group : String) : Option (List Byte) :=
  r.attrs.findSome? (fun a =>
    match a with
    | .group key fields =>
      if key = group then
        fields.findSome? (fun f =>
          match f with
          | .body "body" v => some v
          | _ => none)
      else none
    | _ => none)

/-- A rendering of the recorded errors, one line per error, used in the examples in the place of
`c.Errors.String()`. -/
def errorLines (errs : List String) : String :=
  String.join (errs.map (fun e => "Error: " ++ e ++ "\n"))

/-- The request event: level `Info`, message `Incoming request`, the attribute `req_id` and the
group `request`, whose `body` attribute is empty. -/
def requestEvent (logger : Logger) (start : Int) (request : Request) (requestID : String) :
    Record :=
  { Level := 0,
    Message := "Incoming request",
    bound := logger.bound,
    attrs := [
      .string "req_id" requestID,
      .group "request" [
        .time "time" start,
        .string "path" request.Path,
        .string "query" request.RawQuery,
        .string "method" request.Method,
        .string "host" request.Host,
        .string "route" request.FullPath,
        .string "ip" request.ClientIP,
        .string "referer" (request.Header.Get "Referer"),
        .string "user-agent" (request.Header.Get "User-Agent"),
        .params "params" (request.Params.foldl (fun m p => mapSet m p.1 p.2) []),
        .headers "headers" (extractRequestHeaders request.Header),
        .body "body" []]] }

/-- The completion event of given level and message: emitted through the logger bound with
`req_id`, its only attribute the group `response`. -/
def completionEvent (logger : Logger) (start finish : Int) (requestID : String) (status : Int)
    (responseHeader : Header) (body : List Byte) (level : Int) (msg : String) : Record :=
  { Level := level,
    Message := msg,
    bound := logger.bound ++ [.string "req_id" requestID],
    attrs := [
      .group "response" [
        .time "time" finish,
        .duration "latency" (finish - start),
        .int "status" status,
        .headers "headers" (extractResponseHeaders responseHeader),
        .body "body" body]] }

/-- The source honours the contract of `io.Reader`: every count it returns lies between 0 and
the length of the buffer. -/
def ReadContract {ρ ε : Type} (read : ρ → Slice → ρ × Slice × Int × Option ε) : Prop :=
  ∀ s b, 0 ≤ (read s b).2.2.1 ∧ (read s b).2.2.1 ≤ (read s b).2.1.len

/-- Request used in the examples. -/
def sampleRequest (header : Header) : Request :=
  { Path := "/items", RawQuery := "", Method := "POST", Host := "example.org",
    FullPath := "/items", ClientIP := "10.0.0.1", Params := [], Header := header }

/-- The middleware run on the request used in the examples: a ten-byte body read from
`bytesSource`, a sink that accepts everything, response cap 5, no response header set, status
200 and no error on entry. -/
def sampleRun (header : Header) (maxRequest : Int)
    (next : List (Op (List Byte) (List Byte))) :
    Outcome (Exchange (List Byte) (List Byte) (List String)) Unit :=
  LoggingMiddleware bytesSource fullSink listUUID errorLines maxRequest 5 ⟨[]⟩ 10 20
    (sampleRequest header) [1, 2, 3, 4, 5, 6, 7, 8, 9, 10] [] [] 200 [] ["u1"] next

/-! ## Auxiliary facts -/

theorem take_split (buf d : List Byte) (m : Int) (h : (buf.length : Int) ≤ m) :
    buf ++ d.take (m - buf.length).toNat = (buf ++ d).take m.toNat := by
  have hm : m.toNat = buf.length + (m - buf.length).toNat := by omega
  rw [hm, List.take_append]

theorem take_fit (buf d : List Byte) (m : Int)
    (hle : ¬ ((buf.length : Int) + d.length > m)) :
    buf ++ d = (buf ++ d).take m.toNat := by
  rw [List.take_of_length_le]
  simp only [List.length_append]
  omega

theorem take_take_append (n : Nat) (l l1 : List Byte) :
    (l.take n ++ l1).take n = (l ++ l1).take n := by
  by_cases h : l.length ≤ n
  · rw [List.take_of_length_le h]
  · have hn : n ≤ l.length := by omega
    rw [List.take_append_of_le_length hn, List.take_append_of_le_length (by simp [hn])]
    simp

theorem upTo_within (b : Slice) (k : Int) (h0 : 0 ≤ k) (hk : k ≤ b.len) :
    b.upTo k = some ⟨b.elems.take k.toNat, (b.elems ++ b.spare).drop k.toNat⟩ := by
  unfold Slice.upTo Slice.cap
  unfold Slice.len at hk
  have hc : 0 ≤ k ∧ k ≤ (b.elems.length : Int) + b.spare.length := by omega
  rw [if_pos hc, List.take_append_of_le_length (by omega)]

/-- One `Write` on a recording writer whose buffer is within the cap. -/
theorem Write_recording {σ ε : Type} (write : σ → Slice → σ × Int × Option ε)
    (w : bodyWriter σ) (b : Slice) (body : Buffer) (hb : w.body = some body)
    (hinv : body.Len ≤ w.maxSize) :
    bodyWriter.Write write w b =
      .ok { ResponseWriter := (write w.ResponseWriter b).1,
            body := some ⟨(body.data ++ b.elems).take w.maxSize.toNat⟩,
            maxSize := w.maxSize,
            bytes := wrapInt (w.bytes + b.len) }
          (write w.ResponseWriter b).2 := by
  unfold bodyWriter.Write
  simp only [hb]
  unfold Buffer.Len at hinv ⊢
  by_cases hgt : (body.data.length : Int) + b.len > w.maxSize
  · have hlen : b.len = b.elems.length := rfl
    rw [if_pos hgt, upTo_within b _ (by omega) (by omega)]
    simp only [Option.map_some', Buffer.Write]
    rw [take_split body.data b.elems w.maxSize hinv]
  · rw [if_neg hgt]
    simp only [Buffer.Write]
    rw [← take_fit body.data b.elems w.maxSize (by simpa [Slice.len] using hgt)]

/-- One `Write` on a writer that does not record. -/
theorem Write_plain {σ ε : Type} (write : σ → Slice → σ × Int × Option ε)
    (w : bodyWriter σ) (b : Slice) (hb : w.body = none) :
    bodyWriter.Write write w b =
      .ok { ResponseWriter := (write w.ResponseWriter b).1,
            body := none,
            maxSize := w.maxSize,
            bytes := wrapInt (w.bytes + b.len) }
          (write w.ResponseWriter b).2 := by
  unfold bodyWriter.Write
  simp only [hb]

/-- One `Read` on a recording reader whose buffer is within the cap, when the count the source
returns lies within the buffer. -/
theorem Read_recording {ρ ε : Type} (read : ρ → Slice → ρ × Slice × Int × Option ε)
    (r : bodyReader ρ) (b : Slice) (body : Buffer) (hb : r.body = some body)
    (hinv : body.Len ≤ r.maxSize)
    (h0 : 0 ≤ (read r.ReadCloser b).2.2.1)
    (hn : (read r.ReadCloser b).2.2.1 ≤ (read r.ReadCloser b).2.1.len) :
    bodyReader.Read read r b =
      .ok { ReadCloser := (read r.ReadCloser b).1,
            body := some ⟨(body.data ++ delivered (read r.ReadCloser b).2).take r.maxSize.toNat⟩,
            maxSize := r.maxSize,
            bytes := wrapInt (r.bytes + (read r.ReadCloser b).2.2.1) }
          (read r.ReadCloser b).2 := by
  unfold bodyReader.Read delivered
  rcases hread : read r.ReadCloser b with ⟨rc, b1, n, err⟩
  simp only [hread] at h0 hn
  simp only [hb]
  unfold Buffer.Len at hinv ⊢
  unfold Slice.len at hn
  have hdl : ((b1.elems.take n.toNat).length : Int) = n := by
    rw [List.length_take]; omega
  by_cases hgt : (body.data.length : Int) + n > r.maxSize
  · rw [if_pos hgt, upTo_within b1 _ (by omega) (by unfold Slice.len; omega)]
    simp only [Option.map_some', Buffer.Write]
    rw [← take_split body.data (b1.elems.take n.toNat) r.maxSize hinv,
      List.take_take, min_eq_left (by omega)]
  · rw [if_neg hgt, upTo_within b1 _ h0 (by unfold Slice.len; omega)]
    simp only [Option.map_some', Buffer.Write]
    rw [← take_fit body.data (b1.elems.take n.toNat) r.maxSize (by omega)]

/-- One `Read` on a reader that does not record. -/
theorem Read_plain {ρ ε : Type} (read : ρ → Slice → ρ × Slice × Int × Option ε)
    (r : bodyReader ρ) (b : Slice) (hb : r.body = none) :
    bodyReader.Read read r b =
      .ok { ReadCloser := (read r.ReadCloser b).1,
            body := none,
            maxSize := r.maxSize,
            bytes := wrapInt (r.bytes + (read r.ReadCloser b).2.2.1) }
          (read r.ReadCloser b).2 := by
  unfold bodyReader.Read
  simp only [hb]

theorem chunkBytes_length (cs : List Slice) : ((chunkBytes cs).length : Int) = chunkLen cs := by
  induction cs with
  | nil => rfl
  | cons c cs ih =>
    have hc : chunkBytes (c :: cs) = c.elems ++ chunkBytes cs := rfl
    have hl : chunkLen (c :: cs) = c.len + chunkLen cs := rfl
    rw [hc, hl, List.length_append, ← ih]
    unfold Slice.len
    omega

/-- A sequence of `Write` calls on a recording writer whose buffer is within the cap. -/
theorem Writes_recording {σ ε : Type} (write : σ → Slice → σ × Int × Option ε)
    (cs : List Slice) (w : bodyWriter σ) (body : Buffer) (hb : w.body = some body)
    (hinv : body.Len ≤ w.maxSize) :
    bodyWriter.Writes write w cs =
      .ok { ResponseWriter := (sinkWrites write w.ResponseWriter cs).1,
            body := some ⟨(body.data ++ chunkBytes cs).take w.maxSize.toNat⟩,
            maxSize := w.maxSize,
            bytes := wrapSum w.bytes (cs.map Slice.len) }
          (sinkWrites write w.ResponseWriter cs).2 := by
  induction cs generalizing w body with
  | nil =>
    have hd : body.data.take w.maxSize.toNat = body.data := by
      apply List.take_of_length_le
      unfold Buffer.Len at hinv
      omega
    obtain ⟨rw, wb, m, n⟩ := w
    cases hb
    simp [bodyWriter.Writes, sinkWrites, chunkBytes, wrapSum, hd]
  | cons c cs ih =>
    unfold bodyWriter.Writes
    rw [Write_recording write w c body hb hinv]
    simp only
    rw [ih _ ⟨(body.data ++ c.elems).take w.maxSize.toNat⟩ rfl
      (by unfold Buffer.Len at hinv ⊢; simp only [List.length_take]; omega)]
    simp only [sinkWrites, chunkBytes, wrapSum, List.map_cons, List.flatten_cons,
      take_take_append, List.append_assoc]

/-- A sequence of `Write` calls on a writer that does not record. -/
theorem Writes_plain {σ ε : Type} (write : σ → Slice → σ × Int × Option ε)
    (cs : List Slice) (w : bodyWriter σ) (hb : w.body = none) :
    bodyWriter.Writes write w cs =
      .ok { ResponseWriter := (sinkWrites write w.ResponseWriter cs).1,
            body := none,
            maxSize := w.maxSize,
            bytes := wrapSum w.bytes (cs.map Slice.len) }
          (sinkWrites write w.ResponseWriter cs).2 := by
  induction cs generalizing w with
  | nil =>
    obtain ⟨rw, wb, m, n⟩ := w
    cases hb
    simp [bodyWriter.Writes, sinkWrites, wrapSum]
  | cons c cs ih =>
    unfold bodyWriter.Writes
    rw [Write_plain write w c hb]
    simp only
    rw [ih _ rfl]
    simp only [sinkWrites, wrapSum, List.map_cons]

/-- A sequence of `Read` calls on a recording reader whose buffer is within the cap, when every
count the source returns lies within the buffer of its call. -/
theorem Reads_recording {ρ ε : Type} (read : ρ → Slice → ρ × Slice × Int × Option ε)
    (bs : List Slice) (r : bodyReader ρ) (body : Buffer) (hb : r.body = some body)
    (hinv : body.Len ≤ r.maxSize)
    (hsrc : ∀ o ∈ (sourceReads read r.ReadCloser bs).2, 0 ≤ o.2.1 ∧ o.2.1 ≤ o.1.len) :
    bodyReader.Reads read r bs =
      .ok { ReadCloser := (sourceReads read r.ReadCloser bs).1,
            body := some ⟨(body.data ++ readBytes (sourceReads read r.ReadCloser bs).2).take
              r.maxSize.toNat⟩,
            maxSize := r.maxSize,
            bytes := wrapSum r.bytes
              ((sourceReads read r.ReadCloser bs).2.map (fun o => o.2.1)) }
          (sourceReads read r.ReadCloser bs).2 := by
  induction bs generalizing r body with
  | nil =>
    have hd : body.data.take r.maxSize.toNat = body.data := by
      apply List.take_of_length_le
      unfold Buffer.Len at hinv
      omega
    obtain ⟨rc, rb, m, n⟩ := r
    cases hb
    simp [bodyReader.Reads, sourceReads, readBytes, wrapSum, hd]
  | cons b bs ih =>
    have hhead := hsrc (read r.ReadCloser b).2 (by simp [sourceReads])
    have htail : ∀ o ∈ (sourceReads read (read r.ReadCloser b).1 bs).2,
        0 ≤ o.2.1 ∧ o.2.1 ≤ o.1.len := by
      intro o ho
      exact hsrc o (by simp [sourceReads, ho])
    unfold bodyReader.Reads
    rw [Read_recording read r b body hb hinv hhead.1 hhead.2]
    simp only
    rw [ih _ ⟨(body.data ++ delivered (read r.ReadCloser b).2).take r.maxSize.toNat⟩ rfl
      (by unfold Buffer.Len at hinv ⊢; simp only [List.length_take]; omega) htail]
    simp only [sourceReads, readBytes, wrapSum, List.map_cons, List.flatten_cons,
      take_take_append, List.append_assoc]

/-- A sequence of `Read` calls on a reader that does not record. -/
theorem Reads_plain {ρ ε : Type} (read : ρ → Slice → ρ × Slice × Int × Option ε)
    (bs : List Slice) (r : bodyReader ρ) (hb : r.body = none) :
    bodyReader.Reads read r bs =
      .ok { ReadCloser := (sourceReads read r.ReadCloser bs).1,
            body := none,
            maxSize := r.maxSize,
            bytes := wrapSum r.bytes
              ((sourceReads read r.ReadCloser bs).2.map (fun o => o.2.1)) }
          (sourceReads read r.ReadCloser bs).2 := by
  induction bs generalizing r with
  | nil =>
    obtain ⟨rc, rb, m, n⟩ := r
    cases hb
    simp [bodyReader.Reads, sourceReads, wrapSum]
  | cons b bs ih =>
    unfold bodyReader.Reads
    rw [Read_plain read r b hb]
    simp only
    rw [ih _ rfl]
    simp only [sourceReads, wrapSum, List.map_cons]

theorem readBytes_length {ε : Type} (os : List (Slice × Int × Option ε))
    (h : ∀ o ∈ os, 0 ≤ o.2.1 ∧ o.2.1 ≤ o.1.len) :
    ((readBytes os).length : Int) = readLen os := by
  induction os with
  | nil => rfl
  | cons o os ih =>
    have hc : readBytes (o :: os) = delivered o ++ readBytes os := rfl
    have hl : readLen (o :: os) = o.2.1 + readLen os := rfl
    have ho := h o (by simp)
    rw [hc, hl, List.length_append, ← ih (fun x hx => h x (by simp [hx]))]
    unfold delivered
    unfold Slice.len at ho
    rw [List.length_take]
    omega

theorem upTo_length (b p : Slice) (k : Int) (h : b.upTo k = some p) :
    (p.elems.length : Int) = k := by
  unfold Slice.upTo Slice.cap at h
  split at h
  · rename_i hk
    cases h
    simp only [List.length_take, List.length_append]
    omega
  · cases h

/-- One `Read`, whatever the source returns and whether or not the call panics, keeps the cap
and keeps the capture buffer within it. -/
theorem Read_after {ρ ε : Type} (read : ρ → Slice → ρ × Slice × Int × Option ε)
    (r : bodyReader ρ) (b : Slice) (hinv : withinCap r.body r.maxSize) :
    (bodyReader.Read read r b).after.maxSize = r.maxSize ∧
      withinCap (bodyReader.Read read r b).after.body r.maxSize := by
  unfold bodyReader.Read
  rcases hread : read r.ReadCloser b with ⟨rc, b1, n, err⟩
  simp only
  cases hb : r.body with
  | none =>
    refine ⟨rfl, ?_⟩
    intro buf hbuf
    simp [Outcome.after] at hbuf
  | some body =>
    have hlen := hinv body hb
    unfold Buffer.Len at hlen
    simp only [Buffer.Len]
    by_cases hgt : (body.data.length : Int) + n > r.maxSize
    · simp only [if_pos hgt]
      cases hu : b1.upTo (r.maxSize - body.data.length) with
      | none =>
        refine ⟨rfl, ?_⟩
        intro buf hbuf
        simp only [Option.map_none', Outcome.after] at hbuf
        exact hinv buf (hb ▸ hbuf)
      | some p =>
        refine ⟨rfl, ?_⟩
        intro buf hbuf
        simp only [Option.map_some', Outcome.after, Option.some.injEq] at hbuf
        subst hbuf
        have := upTo_length b1 p _ hu
        simp only [Buffer.Len, Buffer.Write, List.length_append]
        omega
    · simp only [if_neg hgt]
      cases hu : b1.upTo n with
      | none =>
        refine ⟨rfl, ?_⟩
        intro buf hbuf
        simp only [Option.map_none', Outcome.after] at hbuf
        exact hinv buf (hb ▸ hbuf)
      | some p =>
        refine ⟨rfl, ?_⟩
        intro buf hbuf
        simp only [Option.map_some', Outcome.after, Option.some.injEq] at hbuf
        subst hbuf
        have := upTo_length b1 p _ hu
        simp only [Buffer.Len, Buffer.Write, List.length_append]
        omega

/-- A sequence of `Read` calls, whatever the source returns and whether or not a call panics,
keeps the cap and keeps the capture buffer within it. -/
theorem Reads_after {ρ ε : Type} (read : ρ → Slice → ρ × Slice × Int × Option ε)
    (bs : List Slice) (r : bodyReader ρ) (hinv : withinCap r.body r.maxSize) :
    (bodyReader.Reads read r bs).after.maxSize = r.maxSize ∧
      withinCap (bodyReader.Reads read r bs).after.body r.maxSize := by
  induction bs generalizing r with
  | nil => exact ⟨rfl, hinv⟩
  | cons b bs ih =>
    have hstep := Read_after read r b hinv
    unfold bodyReader.Reads
    cases h1 : bodyReader.Read read r b with
    | panic r1 =>
      rw [h1] at hstep
      exact hstep
    | ok r1 o =>
      rw [h1] at hstep
      simp only [Outcome.after] at hstep
      have hrec := ih r1 (hstep.1 ▸ hstep.2)
      rw [hstep.1] at hrec
      cases h2 : bodyReader.Reads read r1 bs with
      | panic r2 =>
        rw [h2] at hrec
        simpa only [h2] using hrec
      | ok r2 os =>
        rw [h2] at hrec
        simpa only [h2] using hrec

theorem newBodyWriter_withinCap {σ : Type} (sink : σ) (m : Int) (hm : 0 ≤ m) (rec : Bool) :
    withinCap (newBodyWriter sink m rec).body (newBodyWriter sink m rec).maxSize := by
  intro buf hbuf
  cases rec <;> simp [newBodyWriter, Buffer.NewBufferString] at hbuf
  subst hbuf
  simpa [Buffer.Len, newBodyWriter] using hm

theorem newBodyReader_withinCap {ρ : Type} (src : ρ) (m : Int) (hm : 0 ≤ m) (rec : Bool) :
    withinCap (newBodyReader src m rec).body (newBodyReader src m rec).maxSize := by
  intro buf hbuf
  cases rec <;> simp [newBodyReader, Buffer.NewBufferString] at hbuf
  subst hbuf
  simpa [Buffer.Len, newBodyReader] using hm

/-- What a returning `Write` did, in any state of the writer. -/
theorem Write_returns {σ ε : Type} (write : σ → Slice → σ × Int × Option ε)
    (w w1 : bodyWriter σ) (b : Slice) (res : Int × Option ε)
    (h : bodyWriter.Write write w b = .ok w1 res) :
    w1.bytes = wrapInt (w.bytes + b.len) ∧ w1.maxSize = w.maxSize ∧
      w1.ResponseWriter = (write w.ResponseWriter b).1 ∧ res = (write w.ResponseWriter b).2 := by
  unfold bodyWriter.Write at h
  simp only at h
  split at h
  · cases h
  · cases h
    exact ⟨rfl, rfl, rfl, rfl⟩

/-- What a returning sequence of `Write` calls did, in any state of the writer. -/
theorem Writes_returns {σ ε : Type} (write : σ → Slice → σ × Int × Option ε)
    (cs : List Slice) (w w1 : bodyWriter σ) (rs : List (Int × Option ε))
    (h : bodyWriter.Writes write w cs = .ok w1 rs) :
    w1.bytes = wrapSum w.bytes (cs.map Slice.len) ∧ w1.maxSize = w.maxSize ∧
      w1.ResponseWriter = (sinkWrites write w.ResponseWriter cs).1 ∧
      rs = (sinkWrites write w.ResponseWriter cs).2 := by
  induction cs generalizing w rs with
  | nil =>
    simp only [bodyWriter.Writes, Outcome.ok.injEq] at h
    obtain ⟨rfl, rfl⟩ := h
    simp [sinkWrites, wrapSum]
  | cons c cs ih =>
    unfold bodyWriter.Writes at h
    cases h1 : bodyWriter.Write write w c with
    | panic w2 => simp [h1] at h
    | ok w2 res =>
      cases h2 : bodyWriter.Writes write w2 cs with
      | panic w3 => simp [h1, h2] at h
      | ok w3 rs3 =>
        simp only [h1, h2, Outcome.ok.injEq] at h
        obtain ⟨rfl, rfl⟩ := h
        obtain ⟨hb, hm, hs, hr⟩ := Write_returns write w w2 c res h1
        obtain ⟨hb3, hm3, hs3, hr3⟩ := ih w2 rs3 h2
        refine ⟨by rw [hb3, hb]; rfl, by rw [hm3, hm], ?_, ?_⟩
        · rw [hs3, hs]; rfl
        · rw [hr3, hr, hs]; rfl

/-- What a returning `Read` did, in any state of the reader. -/
theorem Read_returns {ρ ε : Type} (read : ρ → Slice → ρ × Slice × Int × Option ε)
    (r r1 : bodyReader ρ) (b : Slice) (res : Slice × Int × Option ε)
    (h : bodyReader.Read read r b = .ok r1 res) :
    r1.bytes = wrapInt (r.bytes + res.2.1) ∧ r1.maxSize = r.maxSize ∧
      r1.ReadCloser = (read r.ReadCloser b).1 ∧ res = (read r.ReadCloser b).2 := by
  unfold bodyReader.Read at h
  simp only at h
  split at h
  · cases h
  · cases h
    exact ⟨rfl, rfl, rfl, rfl⟩

/-- What a returning sequence of `Read` calls did, in any state of the reader. -/
theorem Reads_returns {ρ ε : Type} (read : ρ → Slice → ρ × Slice × Int × Option ε)
    (bs : List Slice) (r r1 : bodyReader ρ) (os : List (Slice × Int × Option ε))
    (h : bodyReader.Reads read r bs = .ok r1 os) :
    r1.bytes = wrapSum r.bytes (os.map (fun o => o.2.1)) ∧ r1.maxSize = r.maxSize ∧
      r1.ReadCloser = (sourceReads read r.ReadCloser bs).1 ∧
      os = (sourceReads read r.ReadCloser bs).2 := by
  induction bs generalizing r os with
  | nil =>
    simp only [bodyReader.Reads, Outcome.ok.injEq] at h
    obtain ⟨rfl, rfl⟩ := h
    simp [sourceReads, wrapSum]
  | cons b bs ih =>
    unfold bodyReader.Reads at h
    cases h1 : bodyReader.Read read r b with
    | panic r2 => simp [h1] at h
    | ok r2 res =>
      cases h2 : bodyReader.Reads read r2 bs with
      | panic r3 => simp [h1, h2] at h
      | ok r3 os3 =>
        simp only [h1, h2, Outcome.ok.injEq] at h
        obtain ⟨rfl, rfl⟩ := h
        obtain ⟨hb, hm, hs, hr⟩ := Read_returns read r r2 b res h1
        obtain ⟨hb3, hm3, hs3, hr3⟩ := ih r2 os3 h2
        refine ⟨by rw [hb3, hb]; rfl, by rw [hm3, hm], ?_, ?_⟩
        · rw [hs3, hs]; rfl
        · rw [hr3, hr, hs]; rfl

/-! ## Capture of the first bytes -/

/-- C1. For every cap `m ≥ 0`, every sink and every sequence of chunks written to a freshly
created recording writer, all the calls return and the capture buffer then holds the first
`min(m, total length)` bytes of the concatenation of the chunks, wherever the chunk boundaries
fall.  (The sink need not even accept the chunks in full.) -/
theorem writer_captures_first_bytes {σ ε : Type} (write : σ → Slice → σ × Int × Option ε)
    (sink : σ) (m : Int) (hm : 0 ≤ m) (cs : List Slice) :
    ∃ w rs, bodyWriter.Writes write (newBodyWriter sink m true) cs = .ok w rs ∧
      w.body.map Buffer.String
        = some ((chunkBytes cs).take (min m (chunkBytes cs).length).toNat) := by
  refine ⟨_, _, Writes_recording write cs (newBodyWriter sink m true) ⟨[]⟩ rfl
    (by simpa [Buffer.Len, newBodyWriter] using hm), ?_⟩
  simp only [newBodyWriter, Option.map_some', Buffer.String, List.nil_append, Option.some.injEq]
  rcases le_total m (chunkBytes cs).length with h | h
  · rw [min_eq_left h]
  · rw [min_eq_right h, List.take_of_length_le (by omega)]
    simp

theorem writer_captures_first_bytes_witness :
    (0 : Int) ≤ 3 ∧
    ∃ w rs, bodyWriter.Writes fullSink (newBodyWriter [] 3 true)
        [Slice.ofList [1, 2], Slice.ofList [3, 4]] = .ok w rs ∧
      w.body.map Buffer.String
        = some ((chunkBytes [Slice.ofList [1, 2], Slice.ofList [3, 4]]).take
            (min (3 : Int) (chunkBytes [Slice.ofList [1, 2], Slice.ofList [3, 4]]).length).toNat) :=
  ⟨by decide, writer_captures_first_bytes fullSink [] 3 (by decide) _⟩

/-- C2. For every cap `m ≥ 0`, every source and every sequence of `Read` calls on a freshly
created recording reader in which each count returned by the source lies between 0 and the length
of the buffer of its call, all the calls return what the source returned and the capture buffer
then holds the first `min(m, n1 + … + nk)` bytes of the delivered data `d1 ++ … ++ dk`, however
the data is split over the calls and whatever errors accompany it. -/
theorem reader_captures_first_bytes {ρ ε : Type} (read : ρ → Slice → ρ × Slice × Int × Option ε)
    (src : ρ) (m : Int) (hm : 0 ≤ m) (bs : List Slice)
    (hsrc : ∀ o ∈ (sourceReads read src bs).2, 0 ≤ o.2.1 ∧ o.2.1 ≤ o.1.len) :
    ∃ r, bodyReader.Reads read (newBodyReader src m true) bs
        = .ok r (sourceReads read src bs).2 ∧
      r.body.map Buffer.String
        = some ((readBytes (sourceReads read src bs).2).take
            (min m (readLen (sourceReads read src bs).2)).toNat) := by
  refine ⟨_, Reads_recording read bs (newBodyReader src m true) ⟨[]⟩ rfl
    (by simpa [Buffer.Len, newBodyReader] using hm) hsrc, ?_⟩
  simp only [newBodyReader, Option.map_some', Buffer.String, List.nil_append, Option.some.injEq]
  have hl := readBytes_length (sourceReads read src bs).2 hsrc
  rcases le_total m (readLen (sourceReads read src bs).2) with h | h
  · rw [min_eq_left h]
  · rw [min_eq_right h, List.take_of_length_le (by omega), List.take_of_length_le (by omega)]

theorem reader_captures_first_bytes_witness :
    (0 : Int) ≤ 3 ∧
    (∀ o ∈ (sourceReads bytesSource [1, 2, 3, 4, 5]
        [Slice.ofList [0, 0], Slice.ofList [0, 0], Slice.ofList [0, 0]]).2,
      0 ≤ o.2.1 ∧ o.2.1 ≤ o.1.len) ∧
    ∃ r, bodyReader.Reads bytesSource (newBodyReader [1, 2, 3, 4, 5] 3 true)
        [Slice.ofList [0, 0], Slice.ofList [0, 0], Slice.ofList [0, 0]]
        = .ok r (sourceReads bytesSource [1, 2, 3, 4, 5]
            [Slice.ofList [0, 0], Slice.ofList [0, 0], Slice.ofList [0, 0]]).2 ∧
      r.body.map Buffer.String
        = some ((readBytes (sourceReads bytesSource [1, 2, 3, 4, 5]
              [Slice.ofList [0, 0], Slice.ofList [0, 0], Slice.ofList [0, 0]]).2).take
            (min (3 : Int) (readLen (sourceReads bytesSource [1, 2, 3, 4, 5]
              [Slice.ofList [0, 0], Slice.ofList [0, 0], Slice.ofList [0, 0]]).2)).toNat) :=
  ⟨by decide, by decide,
    reader_captures_first_bytes bytesSource [1, 2, 3, 4, 5] 3 (by decide) _ (by decide)⟩

/-! ## The capture buffer stays within the cap -/

/-- C3. For every cap `maxSize ≥ 0`, recording or not: a freshly created `bodyWriter` followed by
any sequence of `Write` calls (the empty one included) returns from all of them with its capture
buffer no longer than the cap; a freshly created `bodyReader` followed by any sequence of `Read`
calls, whatever counts the source returns and whether or not a call panics, has its capture buffer
no longer than the cap. -/
theorem capture_within_cap {σ ρ ε : Type} (maxSize : Int) (hm : 0 ≤ maxSize)
    (write : σ → Slice → σ × Int × Option ε) (sink : σ) (recW : Bool) (cs : List Slice)
    (read : ρ → Slice → ρ × Slice × Int × Option ε) (src : ρ) (recR : Bool) (bs : List Slice) :
    (∃ w rs, bodyWriter.Writes write (newBodyWriter sink maxSize recW) cs = .ok w rs ∧
      w.maxSize = maxSize ∧ ∀ buf, w.body = some buf → buf.Len ≤ maxSize) ∧
    ((bodyReader.Reads read (newBodyReader src maxSize recR) bs).after.maxSize = maxSize ∧
      ∀ buf, (bodyReader.Reads read (newBodyReader src maxSize recR) bs).after.body = some buf →
        buf.Len ≤ maxSize) := by
  constructor
  · cases recW with
    | false =>
      refine ⟨_, _, Writes_plain write cs (newBodyWriter sink maxSize false) rfl, rfl, ?_⟩
      intro buf hbuf
      cases hbuf
    | true =>
      refine ⟨_, _, Writes_recording write cs (newBodyWriter sink maxSize true) ⟨[]⟩ rfl
        (by simpa [Buffer.Len, newBodyWriter] using hm), rfl, ?_⟩
      intro buf hbuf
      simp only [Option.some.injEq] at hbuf
      subst hbuf
      simp only [Buffer.Len, List.length_take, newBodyWriter]
      omega
  · exact Reads_after read bs (newBodyReader src maxSize recR)
      (newBodyReader_withinCap src maxSize hm recR)

theorem capture_within_cap_witness :
    (0 : Int) ≤ 3 ∧
    ((∃ w rs, bodyWriter.Writes fullSink (newBodyWriter [] 3 true)
        [Slice.ofList [1, 2], Slice.ofList [3, 4], Slice.ofList [5]] = .ok w rs ∧
      w.maxSize = 3 ∧ ∀ buf, w.body = some buf → buf.Len ≤ 3) ∧
    ((bodyReader.Reads bytesSource (newBodyReader [1, 2, 3, 4, 5] 3 true)
        [Slice.ofList [0, 0], Slice.ofList [0, 0]]).after.maxSize = 3 ∧
      ∀ buf, (bodyReader.Reads bytesSource (newBodyReader [1, 2, 3, 4, 5] 3 true)
        [Slice.ofList [0, 0], Slice.ofList [0, 0]]).after.body = some buf → buf.Len ≤ 3)) :=
  ⟨by decide, capture_within_cap 3 (by decide) fullSink [] true _ bytesSource _ true _⟩

/-! ## Transparency for the real I/O -/

/-- C4, as stated, fails: a recording writer created with cap `-1` panics in the capture step of
its first `Write` and never calls the sink, whereas the same `Write` on the sink itself stores the
byte and returns `(1, nil)`; a recording reader created with cap `-1` panics after its first
underlying `Read` and so never returns the `(1, EOF)` that call returned. -/
theorem negative_cap_call_not_transparent :
    bodyWriter.Write fullSink (newBodyWriter [] (-1) true) (Slice.ofList [7])
        = .panic (newBodyWriter [] (-1) true) ∧
      fullSink [] (Slice.ofList [7]) = ([7], 1, none) ∧
      bodyReader.Read bytesSource (newBodyReader [7] (-1) true) (Slice.ofList [0])
        = .panic (newBodyReader [] (-1) true) ∧
      bytesSource [7] (Slice.ofList [0]) = ([], Slice.ofList [7], 1, some "EOF") := by
  decide

/-- C4, amended. In every state of the wrapper whose capture buffer is absent or no longer than
the cap (a saturated buffer included): `Write(b)` returns, leaves the sink in the state one sink
`Write(b)` leaves it in and returns that call's `(count, error)` pair; and, when the count `n` the
source returns satisfies `0 ≤ n ≤ len(b)`, `Read(b)` returns, leaves the source in the state one
source `Read(b)` leaves it in and returns that call's buffer contents, count and error. -/
theorem wrapper_call_transparent {σ ρ ε : Type}
    (write : σ → Slice → σ × Int × Option ε) (w : bodyWriter σ) (b : Slice)
    (hw : ∀ buf, w.body = some buf → buf.Len ≤ w.maxSize)
    (read : ρ → Slice → ρ × Slice × Int × Option ε) (r : bodyReader ρ) (p : Slice)
    (hr : ∀ buf, r.body = some buf → buf.Len ≤ r.maxSize)
    (h0 : 0 ≤ (read r.ReadCloser p).2.2.1)
    (hn : (read r.ReadCloser p).2.2.1 ≤ (read r.ReadCloser p).2.1.len) :
    (∃ w1, bodyWriter.Write write w b = .ok w1 (write w.ResponseWriter b).2 ∧
      w1.ResponseWriter = (write w.ResponseWriter b).1) ∧
    (∃ r1, bodyReader.Read read r p = .ok r1 (read r.ReadCloser p).2 ∧
      r1.ReadCloser = (read r.ReadCloser p).1) := by
  constructor
  · cases hb : w.body with
    | none => exact ⟨_, Write_plain write w b hb, rfl⟩
    | some buf => exact ⟨_, Write_recording write w b buf hb (hw buf hb), rfl⟩
  · cases hb : r.body with
    | none => exact ⟨_, Read_plain read r p hb, rfl⟩
    | some buf => exact ⟨_, Read_recording read r p buf hb (hr buf hb) h0 hn, rfl⟩

theorem wrapper_call_transparent_witness :
    (∃ w1, bodyWriter.Write shortSink ⟨[], some ⟨[1, 2, 3]⟩, 3, 3⟩ (Slice.ofList [4, 5])
        = .ok w1 (shortSink [] (Slice.ofList [4, 5])).2 ∧
      w1.ResponseWriter = (shortSink [] (Slice.ofList [4, 5])).1) ∧
    (∃ r1, bodyReader.Read bytesSource ⟨[4, 5], some ⟨[1, 2, 3]⟩, 3, 3⟩ (Slice.ofList [0, 0, 0])
        = .ok r1 (bytesSource [4, 5] (Slice.ofList [0, 0, 0])).2 ∧
      r1.ReadCloser = (bytesSource [4, 5] (Slice.ofList [0, 0, 0])).1) :=
  wrapper_call_transparent shortSink ⟨[], some ⟨[1, 2, 3]⟩, 3, 3⟩ (Slice.ofList [4, 5])
    (by intro buf h; cases h; decide)
    bytesSource ⟨[4, 5], some ⟨[1, 2, 3]⟩, 3, 3⟩ (Slice.ofList [0, 0, 0])
    (by intro buf h; cases h; decide) (by decide) (by decide)

/-! ## The byte counter -/

theorem wrapInt_in_range (x : Int) (h1 : -9223372036854775808 ≤ x)
    (h2 : x < 9223372036854775808) : wrapInt x = x := by
  unfold wrapInt
  omega

theorem wrapSum_in_range (ns : List Int) (start : Int) (hs : -9223372036854775808 ≤ start)
    (hpos : ∀ n ∈ ns, 0 ≤ n) (hmax : start + ns.sum < 9223372036854775808) :
    wrapSum start ns = start + ns.sum := by
  induction ns generalizing start with
  | nil => simp [wrapSum]
  | cons n ns ih =>
    have hn : 0 ≤ n := hpos n (by simp)
    have htail : ∀ k ∈ ns, 0 ≤ k := fun k hk => hpos k (by simp [hk])
    have hsum : 0 ≤ ns.sum := List.sum_nonneg htail
    rw [List.sum_cons] at hmax
    have hw : wrapInt (start + n) = start + n := wrapInt_in_range _ (by omega) (by omega)
    unfold wrapSum
    rw [hw, ih (start + n) (by omega) htail (by omega), List.sum_cons]
    omega

/-- C5, as stated, fails. When the sink accepts one byte of a three-byte chunk and reports a
short write, the call returns `(1, err)` but the writer's counter is 3.  And the counter is a Go
`int`: on a writer whose counter stands at `MaxInt`, a `Write` of one byte that the sink accepts
leaves the counter at `MinInt`, so it has decreased. -/
theorem write_counter_counts_chunk_length :
    (∃ w, bodyWriter.Writes shortSink (newBodyWriter [] 10 true) [Slice.ofList [1, 2, 3]]
        = .ok w [(1, some "short write")] ∧
      w.bytes = 3 ∧ writtenLen [((1 : Int), some "short write")] = 1) ∧
    bodyWriter.Write fullSink ⟨[], none, 0, 9223372036854775807⟩ (Slice.ofList [7])
      = .ok ⟨[7], none, 0, -9223372036854775808⟩ (1, none) :=
  ⟨⟨⟨[1], some ⟨[1, 2, 3]⟩, 10, 3⟩, by decide, by decide, by decide⟩, by decide⟩

/-- C5, amended. With a 64-bit `int`, for every cap and every sequence of calls on a freshly
created wrapper: if the `Write` calls all return and the lengths of the chunks passed to `Write`
add up to less than `2^63`, the writer's counter is that sum, which is the sum of the counts
returned by the underlying `Write` calls whenever the sink accepted every chunk in full; if the
`Read` calls all return with counts `0 ≤ n ≤ len(b)` that add up to less than `2^63`, the
reader's counter is the sum of the counts returned by the underlying `Read` calls; the capture
buffer plays no part.  The calls do all return when the wrapper does not record or the cap is
`≥ 0` (for reads, with counts `0 ≤ n ≤ len(b)`).  A returning `Write`, or a returning `Read` with
a count `0 ≤ n ≤ len(b)`, that does not take the counter to `2^63` adds the transferred length
to the counter and so does not decrease it. -/
theorem byte_counter_total {σ ρ ε : Type}
    (write : σ → Slice → σ × Int × Option ε) (sink : σ) (mW : Int) (recW : Bool)
    (cs : List Slice)
    (read : ρ → Slice → ρ × Slice × Int × Option ε) (src : ρ) (mR : Int) (recR : Bool)
    (bs : List Slice) :
    (∀ (w : bodyWriter σ) (rs : List (Int × Option ε)),
      bodyWriter.Writes write (newBodyWriter sink mW recW) cs = .ok w rs →
      chunkLen cs < 9223372036854775808 →
        rs = (sinkWrites write sink cs).2 ∧ w.bytes = chunkLen cs ∧
          (rs.map (fun x => x.1) = cs.map Slice.len → w.bytes = writtenLen rs)) ∧
    (∀ (r : bodyReader ρ) (os : List (Slice × Int × Option ε)),
      bodyReader.Reads read (newBodyReader src mR recR) bs = .ok r os →
      (∀ o ∈ os, 0 ≤ o.2.1 ∧ o.2.1 ≤ o.1.len) →
      readLen os < 9223372036854775808 →
        os = (sourceReads read src bs).2 ∧ r.bytes = readLen os) ∧
    (recW = false ∨ 0 ≤ mW →
      ∃ w rs, bodyWriter.Writes write (newBodyWriter sink mW recW) cs = .ok w rs) ∧
    (recR = false ∨
        (0 ≤ mR ∧ ∀ o ∈ (sourceReads read src bs).2, 0 ≤ o.2.1 ∧ o.2.1 ≤ o.1.len) →
      ∃ r os, bodyReader.Reads read (newBodyReader src mR recR) bs = .ok r os) ∧
    (∀ (w0 w1 : bodyWriter σ) (b : Slice) (res : Int × Option ε),
      bodyWriter.Write write w0 b = .ok w1 res →
      -9223372036854775808 ≤ w0.bytes → w0.bytes + b.len < 9223372036854775808 →
        w1.bytes = w0.bytes + b.len ∧ w0.bytes ≤ w1.bytes) ∧
    (∀ (r0 r1 : bodyReader ρ) (b : Slice) (res : Slice × Int × Option ε),
      bodyReader.Read read r0 b = .ok r1 res →
      0 ≤ res.2.1 ∧ res.2.1 ≤ res.1.len →
      -9223372036854775808 ≤ r0.bytes → r0.bytes + res.2.1 < 9223372036854775808 →
        r1.bytes = r0.bytes + res.2.1 ∧ r0.bytes ≤ r1.bytes) := by
  refine ⟨?_, ?_, ?_, ?_, ?_, ?_⟩
  · intro w rs hw hmax
    obtain ⟨hwb, -, -, hwr⟩ := Writes_returns write cs _ w rs hw
    have hpos : ∀ n ∈ cs.map Slice.len, (0 : Int) ≤ n := by
      intro n hn
      obtain ⟨c, -, rfl⟩ := List.mem_map.1 hn
      unfold Slice.len
      omega
    have hwb1 : w.bytes = chunkLen cs := by
      rw [hwb, wrapSum_in_range _ _ (by simp [newBodyWriter]) hpos
        (by simpa [newBodyWriter, chunkLen] using hmax)]
      simp [newBodyWriter, chunkLen]
    refine ⟨hwr, hwb1, ?_⟩
    intro hfull
    rw [hwb1]
    unfold writtenLen chunkLen
    rw [hfull]
  · intro r os hr hcounts hmax
    obtain ⟨hrb, -, -, hrr⟩ := Reads_returns read bs _ r os hr
    have hpos : ∀ n ∈ os.map (fun o => o.2.1), (0 : Int) ≤ n := by
      intro n hn
      obtain ⟨o, ho, rfl⟩ := List.mem_map.1 hn
      exact (hcounts o ho).1
    refine ⟨hrr, ?_⟩
    rw [hrb, wrapSum_in_range _ _ (by simp [newBodyReader]) hpos
      (by simpa [newBodyReader, readLen] using hmax)]
    simp [newBodyReader, readLen]
  · intro h
    cases recW with
    | false => exact ⟨_, _, Writes_plain write cs (newBodyWriter sink mW false) rfl⟩
    | true =>
      have hm : 0 ≤ mW := by simpa using h
      exact ⟨_, _, Writes_recording write cs (newBodyWriter sink mW true) ⟨[]⟩ rfl
        (by simpa [Buffer.Len, newBodyWriter] using hm)⟩
  · intro h
    cases recR with
    | false => exact ⟨_, _, Reads_plain read bs (newBodyReader src mR false) rfl⟩
    | true =>
      have hm : 0 ≤ mR ∧ ∀ o ∈ (sourceReads read src bs).2, 0 ≤ o.2.1 ∧ o.2.1 ≤ o.1.len := by
        simpa using h
      exact ⟨_, _, Reads_recording read bs (newBodyReader src mR true) ⟨[]⟩ rfl
        (by simpa [Buffer.Len, newBodyReader] using hm.1) hm.2⟩
  · intro w0 w1 b res h hlow hmax
    have hstep := (Write_returns write w0 w1 b res h).1
    have hl : 0 ≤ b.len := by unfold Slice.len; omega
    rw [wrapInt_in_range _ (by omega) hmax] at hstep
    exact ⟨hstep, by omega⟩
  · intro r0 r1 b res h hcount hlow hmax
    have hstep := (Read_returns read r0 r1 b res h).1
    rw [wrapInt_in_range _ (by omega) hmax] at hstep
    exact ⟨hstep, by omega⟩

theorem byte_counter_total_witness :
    ([((2 : Int), (none : Option String)), (2, none)]
        = (sinkWrites fullSink [] [Slice.ofList [1, 2], Slice.ofList [3, 4]]).2 ∧
      (⟨[1, 2, 3, 4], some ⟨[1, 2, 3]⟩, 3, 4⟩ : bodyWriter (List Byte)).bytes
        = chunkLen [Slice.ofList [1, 2], Slice.ofList [3, 4]] ∧
      (([((2 : Int), (none : Option String)), (2, none)]).map (fun x => x.1)
          = [Slice.ofList [1, 2], Slice.ofList [3, 4]].map Slice.len →
        (⟨[1, 2, 3, 4], some ⟨[1, 2, 3]⟩, 3, 4⟩ : bodyWriter (List Byte)).bytes
          = writtenLen [((2 : Int), (none : Option String)), (2, none)])) ∧
    ([(Slice.ofList [1, 2], (2 : Int), (none : Option String)),
        (Slice.ofList [3, 4], 2, none), (Slice.ofList [5, 0], 1, some "EOF")]
        = (sourceReads bytesSource [1, 2, 3, 4, 5]
            [Slice.ofList [0, 0], Slice.ofList [0, 0], Slice.ofList [0, 0]]).2 ∧
      (⟨[], some ⟨[1, 2, 3]⟩, 3, 5⟩ : bodyReader (List Byte)).bytes
        = readLen [(Slice.ofList [1, 2], (2 : Int), (none : Option String)),
            (Slice.ofList [3, 4], 2, none), (Slice.ofList [5, 0], 1, some "EOF")]) ∧
    ((⟨[7], none, 0, 9223372036854775807⟩ : bodyWriter (List Byte)).bytes
        = (⟨[], none, 0, 9223372036854775806⟩ : bodyWriter (List Byte)).bytes
          + (Slice.ofList [7]).len ∧
      (⟨[], none, 0, 9223372036854775806⟩ : bodyWriter (List Byte)).bytes
        ≤ (⟨[7], none, 0, 9223372036854775807⟩ : bodyWriter (List Byte)).bytes) :=
  ⟨(byte_counter_total fullSink [] 3 true [Slice.ofList [1, 2], Slice.ofList [3, 4]]
      bytesSource [1, 2, 3, 4, 5] 3 true
      [Slice.ofList [0, 0], Slice.ofList [0, 0], Slice.ofList [0, 0]]).1
      ⟨[1, 2, 3, 4], some ⟨[1, 2, 3]⟩, 3, 4⟩ [(2, none), (2, none)] (by decide) (by decide),
    (byte_counter_total fullSink [] 3 true [Slice.ofList [1, 2], Slice.ofList [3, 4]]
      bytesSource [1, 2, 3, 4, 5] 3 true
      [Slice.ofList [0, 0], Slice.ofList [0, 0], Slice.ofList [0, 0]]).2.1
      ⟨[], some ⟨[1, 2, 3]⟩, 3, 5⟩
      [(Slice.ofList [1, 2], 2, none), (Slice.ofList [3, 4], 2, none),
        (Slice.ofList [5, 0], 1, some "EOF")] (by decide) (by decide) (by decide),
    (byte_counter_total fullSink [] 3 true [Slice.ofList [1, 2], Slice.ofList [3, 4]]
      bytesSource [1, 2, 3, 4, 5] 3 true
      [Slice.ofList [0, 0], Slice.ofList [0, 0], Slice.ofList [0, 0]]).2.2.2.2.1
      ⟨[], none, 0, 9223372036854775806⟩ ⟨[7], none, 0, 9223372036854775807⟩
      (Slice.ofList [7]) (1, none) (by decide) (by decide) (by decide)⟩

/-! ## The capture step never fails -/

theorem upTo_isSome (b : Slice) (k : Int) (h0 : 0 ≤ k) (hk : k ≤ b.len) :
    (b.upTo k).isSome = true := by
  rw [upTo_within b k h0 hk]
  rfl

/-- C6. With cap `maxSize ≥ 0`: every sequence of `Write` calls on a freshly created writer
returns from every call, with exactly the `(count, error)` pairs of the sink; every sequence of
`Read` calls on a freshly created reader whose source returns counts `0 ≤ n ≤ len(b)` returns from
every call, with exactly the results of the source; and in the state reached, for whatever chunk
comes next, the bound `maxSize - body.Len()` of the slice taken when the chunk does not fit lies
in `[0, len(chunk)]` and the slice expression of either branch is legal. -/
theorem capture_step_never_fails {σ ρ ε : Type} (maxSize : Int) (hm : 0 ≤ maxSize)
    (write : σ → Slice → σ × Int × Option ε) (sink : σ) (recW : Bool) (cs : List Slice)
    (read : ρ → Slice → ρ × Slice × Int × Option ε) (src : ρ) (recR : Bool) (bs : List Slice)
    (hsrc : ∀ o ∈ (sourceReads read src bs).2, 0 ≤ o.2.1 ∧ o.2.1 ≤ o.1.len) :
    (∃ w, bodyWriter.Writes write (newBodyWriter sink maxSize recW) cs
        = .ok w (sinkWrites write sink cs).2 ∧
      ∀ (buf : Buffer) (b : Slice), w.body = some buf → buf.Len + b.len > w.maxSize →
        0 ≤ w.maxSize - buf.Len ∧ w.maxSize - buf.Len ≤ b.len ∧
          (b.upTo (w.maxSize - buf.Len)).isSome = true) ∧
    (∃ r, bodyReader.Reads read (newBodyReader src maxSize recR) bs
        = .ok r (sourceReads read src bs).2 ∧
      ∀ (buf : Buffer) (b : Slice) (n : Int), r.body = some buf → 0 ≤ n → n ≤ b.len →
        (buf.Len + n > r.maxSize →
          0 ≤ r.maxSize - buf.Len ∧ r.maxSize - buf.Len ≤ n ∧
            (b.upTo (r.maxSize - buf.Len)).isSome = true) ∧
        (¬ buf.Len + n > r.maxSize → (b.upTo n).isSome = true)) := by
  constructor
  · cases recW with
    | false =>
      refine ⟨_, Writes_plain write cs (newBodyWriter sink maxSize false) rfl, ?_⟩
      intro buf b hbuf
      cases hbuf
    | true =>
      refine ⟨_, Writes_recording write cs (newBodyWriter sink maxSize true) ⟨[]⟩ rfl
        (by simpa [Buffer.Len, newBodyWriter] using hm), ?_⟩
      intro buf b hbuf hgt
      simp only [Option.some.injEq] at hbuf
      subst hbuf
      simp only [Buffer.Len, List.length_take, newBodyWriter] at hgt ⊢
      have h1 : (0 : Int) ≤ maxSize - ↑(min maxSize.toNat
          (([] : List Byte) ++ chunkBytes cs).length) := by omega
      have h2 : maxSize - ↑(min maxSize.toNat (([] : List Byte) ++ chunkBytes cs).length)
          ≤ b.len := by omega
      exact ⟨h1, h2, upTo_isSome b _ h1 h2⟩
  · cases recR with
    | false =>
      refine ⟨_, Reads_plain read bs (newBodyReader src maxSize false) rfl, ?_⟩
      intro buf b n hbuf
      cases hbuf
    | true =>
      refine ⟨_, Reads_recording read bs (newBodyReader src maxSize true) ⟨[]⟩ rfl
        (by simpa [Buffer.Len, newBodyReader] using hm) hsrc, ?_⟩
      intro buf b n hbuf h0 hn
      simp only [Option.some.injEq] at hbuf
      subst hbuf
      simp only [Buffer.Len, List.length_take, newBodyReader]
      refine ⟨?_, fun _ => upTo_isSome b n h0 hn⟩
      intro hgt
      have h1 : (0 : Int) ≤ maxSize - ↑(min maxSize.toNat
          (([] : List Byte) ++ readBytes (sourceReads read src bs).2).length) := by omega
      have h2 : maxSize - ↑(min maxSize.toNat
          (([] : List Byte) ++ readBytes (sourceReads read src bs).2).length) ≤ n := by omega
      exact ⟨h1, h2, upTo_isSome b _ h1 (by omega)⟩

theorem capture_step_never_fails_witness :
    (0 : Int) ≤ 3 ∧
    (∀ o ∈ (sourceReads bytesSource [1, 2, 3, 4, 5]
        [Slice.ofList [0, 0], Slice.ofList [0, 0]]).2, 0 ≤ o.2.1 ∧ o.2.1 ≤ o.1.len) ∧
    ((∃ w, bodyWriter.Writes shortSink (newBodyWriter [] 3 true)
        [Slice.ofList [1, 2], Slice.ofList [3, 4]]
        = .ok w (sinkWrites shortSink [] [Slice.ofList [1, 2], Slice.ofList [3, 4]]).2 ∧
      ∀ (buf : Buffer) (b : Slice), w.body = some buf → buf.Len + b.len > w.maxSize →
        0 ≤ w.maxSize - buf.Len ∧ w.maxSize - buf.Len ≤ b.len ∧
          (b.upTo (w.maxSize - buf.Len)).isSome = true) ∧
    (∃ r, bodyReader.Reads bytesSource (newBodyReader [1, 2, 3, 4, 5] 3 true)
        [Slice.ofList [0, 0], Slice.ofList [0, 0]]
        = .ok r (sourceReads bytesSource [1, 2, 3, 4, 5]
            [Slice.ofList [0, 0], Slice.ofList [0, 0]]).2 ∧
      ∀ (buf : Buffer) (b : Slice) (n : Int), r.body = some buf → 0 ≤ n → n ≤ b.len →
        (buf.Len + n > r.maxSize →
          0 ≤ r.maxSize - buf.Len ∧ r.maxSize - buf.Len ≤ n ∧
            (b.upTo (r.maxSize - buf.Len)).isSome = true) ∧
        (¬ buf.Len + n > r.maxSize → (b.upTo n).isSome = true))) :=
  ⟨by decide, by decide,
    capture_step_never_fails 3 (by decide) shortSink [] true _ bytesSource _ true _ (by decide)⟩

/-! ## Header redaction -/

/-- The extraction loop over a deny-list keeps, in order, the entries it does not skip. -/
theorem extract_loop (hidden : List String) (H : Header) (acc : List Attr) :
    H.foldl
        (fun headers kv =>
          if ToLower kv.1 ∈ hidden then headers else headers ++ [slogAny kv.1 kv.2])
        acc
      = acc ++ (H.filter (fun kv => decide (ToLower kv.1 ∉ hidden))).map
          (fun kv => slogAny kv.1 kv.2) := by
  induction H generalizing acc with
  | nil => simp
  | cons kv H ih =>
    rw [List.foldl_cons, ih]
    by_cases h : ToLower kv.1 ∈ hidden
    · simp [h]
    · simp [h]

theorem extract_loop_mem (hidden : List String) (H : Header) (k : String) (v : List String) :
    (⟨k, v⟩ : Attr) ∈ (H.filter (fun kv => decide (ToLower kv.1 ∉ hidden))).map
        (fun kv => slogAny kv.1 kv.2)
      ↔ (k, v) ∈ H ∧ ToLower k ∉ hidden := by
  simp only [List.mem_map, List.mem_filter, decide_eq_true_eq, slogAny, Attr.mk.injEq,
    Prod.exists]
  constructor
  · rintro ⟨k1, v1, ⟨hmem, hk⟩, rfl, rfl⟩
    exact ⟨hmem, hk⟩
  · rintro ⟨hmem, hk⟩
    exact ⟨k, v, ⟨hmem, hk⟩, rfl, rfl⟩

theorem extract_loop_keys (hidden : List String) (H : Header) (hmap : (H.map Prod.fst).Nodup) :
    (((H.filter (fun kv => decide (ToLower kv.1 ∉ hidden))).map
        (fun kv => slogAny kv.1 kv.2)).map Attr.Key).Nodup := by
  have hkeys : ((H.filter (fun kv => decide (ToLower kv.1 ∉ hidden))).map
      (fun kv => slogAny kv.1 kv.2)).map Attr.Key
      = (H.filter (fun kv => decide (ToLower kv.1 ∉ hidden))).map Prod.fst := by
    rw [List.map_map]
    rfl
  rw [hkeys]
  exact List.Nodup.sublist (List.Sublist.map Prod.fst (List.filter_sublist H)) hmap

theorem extractRequestHeaders_eq (H : Header) :
    extractRequestHeaders H
      = (H.filter (fun kv => decide (ToLower kv.1 ∉ HiddenRequestHeaders))).map
          (fun kv => slogAny kv.1 kv.2) := by
  unfold extractRequestHeaders
  rw [extract_loop]
  simp

theorem extractResponseHeaders_eq (H : Header) :
    extractResponseHeaders H
      = (H.filter (fun kv => decide (ToLower kv.1 ∉ HiddenResponseHeaders))).map
          (fun kv => slogAny kv.1 kv.2) := by
  unfold extractResponseHeaders
  rw [extract_loop]
  simp

/-- C7. For every request header map `H`: `extractRequestHeaders` returns, in the order of the
traversal, exactly the entries of `H` whose lower-cased name is none of `authorization`,
`cookie`, `set-cookie`, `x-auth-token`, `x-csrf-token`, `x-xsrf-token`; an entry `(k, v)` is in
the result if and only if it is an entry of `H` with such a name, so name and value list are
carried unmodified and no hidden name appears; no name appears twice; and `Authorization`,
`AUTHORIZATION` and `Cookie` are hidden names. -/
theorem extractRequestHeaders_deny_list (H : Header) (hmap : (H.map Prod.fst).Nodup) :
    extractRequestHeaders H
        = (H.filter (fun kv => decide (ToLower kv.1 ∉
            ["authorization", "cookie", "set-cookie", "x-auth-token", "x-csrf-token",
              "x-xsrf-token"]))).map (fun kv => ⟨kv.1, kv.2⟩) ∧
      (∀ (k : String) (v : List String), (⟨k, v⟩ : Attr) ∈ extractRequestHeaders H ↔
        (k, v) ∈ H ∧ ToLower k ∉
          ["authorization", "cookie", "set-cookie", "x-auth-token", "x-csrf-token",
            "x-xsrf-token"]) ∧
      ((extractRequestHeaders H).map Attr.Key).Nodup ∧
      (∀ v, (⟨"Authorization", v⟩ : Attr) ∉ extractRequestHeaders H) ∧
      (∀ v, (⟨"AUTHORIZATION", v⟩ : Attr) ∉ extractRequestHeaders H) ∧
      (∀ v, (⟨"Cookie", v⟩ : Attr) ∉ extractRequestHeaders H) := by
  have hiff : ∀ (k : String) (v : List String), (⟨k, v⟩ : Attr) ∈ extractRequestHeaders H ↔
      (k, v) ∈ H ∧ ToLower k ∉ HiddenRequestHeaders := by
    intro k v
    rw [extractRequestHeaders_eq]
    exact extract_loop_mem _ H k v
  refine ⟨extractRequestHeaders_eq H, hiff, ?_, ?_, ?_, ?_⟩
  · rw [extractRequestHeaders_eq]
    exact extract_loop_keys _ H hmap
  · intro v hv
    exact ((hiff _ v).1 hv).2 (by decide)
  · intro v hv
    exact ((hiff _ v).1 hv).2 (by decide)
  · intro v hv
    exact ((hiff _ v).1 hv).2 (by decide)

theorem extractRequestHeaders_deny_list_witness :
    ([("Authorization", ["Bearer t"]), ("X-Foo", ["y", "z"]), ("COOKIE", ["a=b"]),
        ("X-Csrf-Token", ["t"])].map Prod.fst).Nodup ∧
      extractRequestHeaders [("Authorization", ["Bearer t"]), ("X-Foo", ["y", "z"]),
          ("COOKIE", ["a=b"]), ("X-Csrf-Token", ["t"])]
        = [⟨"X-Foo", ["y", "z"]⟩] :=
  ⟨by decide,
    ((extractRequestHeaders_deny_list [("Authorization", ["Bearer t"]), ("X-Foo", ["y", "z"]),
      ("COOKIE", ["a=b"]), ("X-Csrf-Token", ["t"])] (by decide)).1).trans (by decide)⟩

/-- C8. For every response header map `H`: a key of `H` has no entry in the result of
`extractResponseHeaders` if and only if its lower-cased name is `set-cookie`; every entry of the
result is an entry of `H`, name and value list unmodified; every entry of `H` with another name
is in the result and no name appears twice; the inbound deny-list plays no part: `Authorization`
and `Cookie` are kept. -/
theorem extractResponseHeaders_only_set_cookie (H : Header) (hmap : (H.map Prod.fst).Nodup) :
    (∀ k ∈ H.map Prod.fst,
        k ∉ (extractResponseHeaders H).map Attr.Key ↔ ToLower k = "set-cookie") ∧
      (∀ a ∈ extractResponseHeaders H, (a.Key, a.Value) ∈ H) ∧
      (∀ (k : String) (v : List String), (k, v) ∈ H → ToLower k ≠ "set-cookie" →
        (⟨k, v⟩ : Attr) ∈ extractResponseHeaders H) ∧
      ((extractResponseHeaders H).map Attr.Key).Nodup ∧
      extractResponseHeaders [("Authorization", ["x"]), ("Set-Cookie", ["s"]), ("Cookie", ["c"])]
        = [⟨"Authorization", ["x"]⟩, ⟨"Cookie", ["c"]⟩] := by
  have hiff : ∀ (k : String) (v : List String), (⟨k, v⟩ : Attr) ∈ extractResponseHeaders H ↔
      (k, v) ∈ H ∧ ToLower k ≠ "set-cookie" := by
    intro k v
    rw [extractResponseHeaders_eq, extract_loop_mem]
    simp [HiddenResponseHeaders]
  refine ⟨?_, ?_, ?_, ?_, by decide⟩
  · intro k hk
    obtain ⟨⟨k1, v⟩, hmem, rfl⟩ := List.mem_map.1 hk
    constructor
    · intro hnot
      by_contra hne
      exact hnot (List.mem_map.2 ⟨⟨k1, v⟩, (hiff k1 v).2 ⟨hmem, hne⟩, rfl⟩)
    · intro hlow hin
      obtain ⟨⟨k2, v2⟩, ha, hkey⟩ := List.mem_map.1 hin
      simp only at hkey
      subst hkey
      exact ((hiff _ v2).1 ha).2 hlow
  · rintro ⟨k, v⟩ ha
    exact ((hiff k v).1 ha).1
  · intro k v hmem hne
    exact (hiff k v).2 ⟨hmem, hne⟩
  · rw [extractResponseHeaders_eq]
    exact extract_loop_keys _ H hmap

theorem extractResponseHeaders_only_set_cookie_witness :
    ([("Content-Type", ["text/plain"]), ("SET-COOKIE", ["a=b"]), ("Authorization", ["x"])].map
        Prod.fst).Nodup ∧
      ("SET-COOKIE" ∉ (extractResponseHeaders [("Content-Type", ["text/plain"]),
          ("SET-COOKIE", ["a=b"]), ("Authorization", ["x"])]).map Attr.Key ↔
        ToLower "SET-COOKIE" = "set-cookie") ∧
      ("Authorization" ∉ (extractResponseHeaders [("Content-Type", ["text/plain"]),
          ("SET-COOKIE", ["a=b"]), ("Authorization", ["x"])]).map Attr.Key ↔
        ToLower "Authorization" = "set-cookie") :=
  ⟨by decide,
    (extractResponseHeaders_only_set_cookie [("Content-Type", ["text/plain"]),
      ("SET-COOKIE", ["a=b"]), ("Authorization", ["x"])] (by decide)).1 _ (by decide),
    (extractResponseHeaders_only_set_cookie [("Content-Type", ["text/plain"]),
      ("SET-COOKIE", ["a=b"]), ("Authorization", ["x"])] (by decide)).1 _ (by decide)⟩

theorem headerOf_extract (hidden : List String) (H : Header) :
    headerOf ((H.filter (fun kv => decide (ToLower kv.1 ∉ hidden))).map
        (fun kv => slogAny kv.1 kv.2))
      = H.filter (fun kv => decide (ToLower kv.1 ∉ hidden)) := by
  unfold headerOf
  rw [List.map_map]
  exact List.map_id _

theorem extract_twice (hidden : List String) (H H1 : Header)
    (htrav : H1.Perm (H.filter (fun kv => decide (ToLower kv.1 ∉ hidden)))) :
    ((H1.filter (fun kv => decide (ToLower kv.1 ∉ hidden))).map
        (fun kv => slogAny kv.1 kv.2)).Perm
      ((H.filter (fun kv => decide (ToLower kv.1 ∉ hidden))).map
        (fun kv => slogAny kv.1 kv.2)) := by
  have h1 := (htrav.filter (fun kv => decide (ToLower kv.1 ∉ hidden))).map
    (fun kv => slogAny kv.1 kv.2)
  rw [List.filter_filter] at h1
  simpa using h1

/-- C9. For every header map `H`: the request-header redaction applied to the header set formed
by its own output, in whatever order that set is traversed, gives the entries of the first
application again (in the order of the first output, the very same list); the same holds for the
response-header redaction.  Redacting `{"Authorization": ["x"], "X-Foo": ["y"]}`, in either
order of traversal, yields exactly `{"X-Foo": ["y"]}`, and redacting that again yields
`{"X-Foo": ["y"]}`. -/
theorem redaction_idempotent (H : Header) :
    (∀ H1 : Header, H1.Perm (headerOf (extractRequestHeaders H)) →
        (extractRequestHeaders H1).Perm (extractRequestHeaders H)) ∧
      extractRequestHeaders (headerOf (extractRequestHeaders H)) = extractRequestHeaders H ∧
      (∀ H1 : Header, H1.Perm (headerOf (extractResponseHeaders H)) →
        (extractResponseHeaders H1).Perm (extractResponseHeaders H)) ∧
      extractResponseHeaders (headerOf (extractResponseHeaders H)) = extractResponseHeaders H ∧
      extractRequestHeaders [("Authorization", ["x"]), ("X-Foo", ["y"])] = [⟨"X-Foo", ["y"]⟩] ∧
      extractRequestHeaders [("X-Foo", ["y"]), ("Authorization", ["x"])] = [⟨"X-Foo", ["y"]⟩] ∧
      extractRequestHeaders (headerOf [⟨"X-Foo", ["y"]⟩]) = [⟨"X-Foo", ["y"]⟩] := by
  refine ⟨?_, ?_, ?_, ?_, by decide, by decide, by decide⟩
  · intro H1 h1
    rw [extractRequestHeaders_eq H, headerOf_extract] at h1
    rw [extractRequestHeaders_eq H1, extractRequestHeaders_eq H]
    exact extract_twice _ H H1 h1
  · rw [extractRequestHeaders_eq H, headerOf_extract, extractRequestHeaders_eq,
      List.filter_filter]
    simp
  · intro H1 h1
    rw [extractResponseHeaders_eq H, headerOf_extract] at h1
    rw [extractResponseHeaders_eq H1, extractResponseHeaders_eq H]
    exact extract_twice _ H H1 h1
  · rw [extractResponseHeaders_eq H, headerOf_extract, extractResponseHeaders_eq,
      List.filter_filter]
    simp

/-! ## Resolution of the request id -/

theorem lookup_mem (H : Header) (k : String) (vs : List String)
    (h : H.lookup k = some vs) : (k, vs) ∈ H := by
  induction H with
  | nil => simp at h
  | cons kv H ih =>
    obtain ⟨k1, v1⟩ := kv
    by_cases hk : k = k1
    · subst hk
      simp at h
      subst h
      simp
    · have hne : (k == k1) = false := by simpa using hk
      rw [List.lookup_cons, hne] at h
      exact List.mem_cons_of_mem _ (ih h)

theorem lookup_of_mem (H : Header) (k : String) (vs : List String)
    (hmap : (H.map Prod.fst).Nodup) (h : (k, vs) ∈ H) : H.lookup k = some vs := by
  induction H with
  | nil => simp at h
  | cons kv H ih =>
    obtain ⟨k1, v1⟩ := kv
    rw [List.map_cons, List.nodup_cons] at hmap
    rcases List.mem_cons.1 h with heq | hmem
    · cases heq
      simp
    · have hne : k ≠ k1 := by
        rintro rfl
        exact hmap.1 (List.mem_map.2 ⟨(k, vs), hmem, rfl⟩)
      have hb : (k == k1) = false := by simpa using hne
      rw [List.lookup_cons, hb]
      exact ih hmap.2 hmem

theorem canonical_request_id_key : CanonicalMIMEHeaderKey HeaderRequestIDKey = "X-Request-Id" := by
  decide

/-- C10. For every request header map, response header map and state of the identifier
generator: if the request header `X-Request-Id` is present with a non-empty (first) value, the
resolved request id is exactly that value, no identifier is generated and the response headers
are left as they are; if the header is absent, has no value or has an empty first value, the
resolved id is the identifier `uuid.New().String()` generates.  An inbound `abc-123` resolves to
exactly `abc-123`. -/
theorem request_id_resolution {γ : Type} (uuidNew : γ → String × γ) (gen : γ)
    (requestHeader responseHeader : Header) (hmap : (requestHeader.map Prod.fst).Nodup) :
    (∀ (v : String) (vs : List String), ("X-Request-Id", v :: vs) ∈ requestHeader → v ≠ "" →
        LoggingMiddleware.requestID uuidNew gen requestHeader responseHeader
          = (v, responseHeader, gen)) ∧
      ((∀ vs : List String, ("X-Request-Id", vs) ∈ requestHeader →
          vs = [] ∨ ∃ rest, vs = "" :: rest) →
        (LoggingMiddleware.requestID uuidNew gen requestHeader responseHeader).1
            = (uuidNew gen).1 ∧
          (LoggingMiddleware.requestID uuidNew gen requestHeader responseHeader).2.2
            = (uuidNew gen).2) ∧
      LoggingMiddleware.requestID uuidNew gen [("X-Request-Id", ["abc-123"])] responseHeader
        = ("abc-123", responseHeader, gen) := by
  refine ⟨?_, ?_, ?_⟩
  · intro v vs hmem hv
    have hl := lookup_of_mem requestHeader _ _ hmap hmem
    have hget : GetHeader requestHeader HeaderRequestIDKey = v := by
      unfold GetHeader Header.Get
      rw [canonical_request_id_key, hl]
    unfold LoggingMiddleware.requestID
    simp only [hget]
    rw [if_neg (by simpa using hv)]
  · intro habs
    have hget : GetHeader requestHeader HeaderRequestIDKey = "" := by
      unfold GetHeader Header.Get
      rw [canonical_request_id_key]
      cases hl : requestHeader.lookup "X-Request-Id" with
      | none => rfl
      | some vs =>
        rcases habs vs (lookup_mem requestHeader _ vs hl) with h | ⟨rest, h⟩
        · subst h; rfl
        · subst h; rfl
    unfold LoggingMiddleware.requestID
    simp only [hget]
    exact ⟨rfl, rfl⟩
  · have hget : GetHeader [("X-Request-Id", ["abc-123"])] HeaderRequestIDKey = "abc-123" := by
      decide
    unfold LoggingMiddleware.requestID
    simp only [hget]
    rfl

theorem request_id_resolution_witness :
    ([("Accept", ["*/*"]), ("X-Request-Id", ["abc-123", "other"])].map Prod.fst).Nodup ∧
      LoggingMiddleware.requestID listUUID ["u1", "u2"]
          [("Accept", ["*/*"]), ("X-Request-Id", ["abc-123", "other"])] [("Vary", ["Origin"])]
        = ("abc-123", [("Vary", ["Origin"])], ["u1", "u2"]) :=
  ⟨by decide,
    (request_id_resolution listUUID ["u1", "u2"]
      [("Accept", ["*/*"]), ("X-Request-Id", ["abc-123", "other"])] [("Vary", ["Origin"])]
      (by decide)).1 "abc-123" ["other"] (by decide) (by decide)⟩


/-! ## The middleware as a whole -/

theorem Write_total {σ ε : Type} (write : σ → Slice → σ × Int × Option ε)
    (w : bodyWriter σ) (b : Slice) (hinv : withinCap w.body w.maxSize) :
    ∃ w1, bodyWriter.Write write w b = .ok w1 (write w.ResponseWriter b).2 ∧
      withinCap w1.body w1.maxSize := by
  cases hb : w.body with
  | none =>
    refine ⟨_, Write_plain write w b hb, ?_⟩
    intro buf hbuf
    cases hbuf
  | some body =>
    refine ⟨_, Write_recording write w b body hb (hinv body hb), ?_⟩
    intro buf hbuf
    simp only [Option.some.injEq] at hbuf
    subst hbuf
    simp only [Buffer.Len, List.length_take]
    have := hinv body hb
    unfold Buffer.Len at this
    omega

theorem Read_total {ρ ε : Type} (read : ρ → Slice → ρ × Slice × Int × Option ε)
    (r : bodyReader ρ) (b : Slice) (hinv : withinCap r.body r.maxSize)
    (hsrc : ReadContract read) :
    ∃ r1, bodyReader.Read read r b = .ok r1 (read r.ReadCloser b).2 ∧
      withinCap r1.body r1.maxSize := by
  cases hb : r.body with
  | none =>
    refine ⟨_, Read_plain read r b hb, ?_⟩
    intro buf hbuf
    cases hbuf
  | some body =>
    refine ⟨_, Read_recording read r b body hb (hinv body hb) (hsrc _ _).1 (hsrc _ _).2, ?_⟩
    intro buf hbuf
    simp only [Option.some.injEq] at hbuf
    subst hbuf
    simp only [Buffer.Len, List.length_take]
    have := hinv body hb
    unfold Buffer.Len at this
    omega

/-- The handlers leave the identifier generator alone and add their own events to the log. -/
theorem Next_returns {ρ σ γ ε : Type} (read : ρ → Slice → ρ × Slice × Int × Option ε)
    (write : σ → Slice → σ × Int × Option ε) (ops : List (Op ρ σ)) (x y : Exchange ρ σ γ)
    (h : Next read write x ops = .ok y ()) :
    y.log = x.log ++ handlerLog ops ∧ y.gen = x.gen := by
  induction ops generalizing x with
  | nil =>
    simp only [Next, Outcome.ok.injEq, and_true] at h
    subst h
    simp [handlerLog]
  | cons op ops ih =>
    unfold Next at h
    cases h1 : op.run read write x with
    | panic z => simp [h1] at h
    | ok z u =>
      simp only [h1] at h
      obtain ⟨hlog, hgen⟩ := ih z h
      cases op with
      | read b =>
        unfold Op.run at h1
        cases h2 : bodyReader.Read read x.br b with
        | panic r => simp [h2] at h1
        | ok r o =>
          simp only [h2, Outcome.ok.injEq, and_true] at h1
          subst h1
          exact ⟨by simpa [handlerLog] using hlog, hgen⟩
      | write b =>
        unfold Op.run at h1
        cases h2 : bodyWriter.Write write x.bw b with
        | panic r => simp [h2] at h1
        | ok r o =>
          simp only [h2, Outcome.ok.injEq, and_true] at h1
          subst h1
          exact ⟨by simpa [handlerLog] using hlog, hgen⟩
      | log r =>
        simp only [Op.run, Outcome.ok.injEq, and_true] at h1
        subst h1
        exact ⟨by simpa [handlerLog] using hlog, hgen⟩
      | source f =>
        simp only [Op.run, Outcome.ok.injEq, and_true] at h1
        subst h1
        exact ⟨by simpa [handlerLog] using hlog, hgen⟩
      | sink f =>
        simp only [Op.run, Outcome.ok.injEq, and_true] at h1
        subst h1
        exact ⟨by simpa [handlerLog] using hlog, hgen⟩
      | header f =>
        simp only [Op.run, Outcome.ok.injEq, and_true] at h1
        subst h1
        exact ⟨by simpa [handlerLog] using hlog, hgen⟩
      | status code =>
        simp only [Op.run, Outcome.ok.injEq, and_true] at h1
        subst h1
        exact ⟨by simpa [handlerLog] using hlog, hgen⟩
      | error msg =>
        simp only [Op.run, Outcome.ok.injEq, and_true] at h1
        subst h1
        exact ⟨by simpa [handlerLog] using hlog, hgen⟩

/-- One action of the handlers returns and keeps both capture buffers within their caps, when
they are within them and the source honours the contract of `io.Reader`. -/
theorem Op_run_total {ρ σ γ ε : Type} (read : ρ → Slice → ρ × Slice × Int × Option ε)
    (write : σ → Slice → σ × Int × Option ε) (op : Op ρ σ) (x : Exchange ρ σ γ)
    (hsrc : ReadContract read) (hr : withinCap x.br.body x.br.maxSize)
    (hw : withinCap x.bw.body x.bw.maxSize) :
    ∃ y, op.run read write x = .ok y () ∧ withinCap y.br.body y.br.maxSize ∧
      withinCap y.bw.body y.bw.maxSize := by
  cases op with
  | read b =>
    obtain ⟨r1, h1, h2⟩ := Read_total read x.br b hr hsrc
    exact ⟨{ x with br := r1 }, by simp [Op.run, h1], h2, hw⟩
  | write b =>
    obtain ⟨w1, h1, h2⟩ := Write_total write x.bw b hw
    exact ⟨{ x with bw := w1 }, by simp [Op.run, h1], hr, h2⟩
  | source f => exact ⟨_, rfl, hr, hw⟩
  | sink f => exact ⟨_, rfl, hr, hw⟩
  | header f => exact ⟨_, rfl, hr, hw⟩
  | status code => exact ⟨_, rfl, hr, hw⟩
  | error msg => exact ⟨_, rfl, hr, hw⟩
  | log r => exact ⟨_, rfl, hr, hw⟩

theorem Next_total {ρ σ γ ε : Type} (read : ρ → Slice → ρ × Slice × Int × Option ε)
    (write : σ → Slice → σ × Int × Option ε) (ops : List (Op ρ σ)) (x : Exchange ρ σ γ)
    (hsrc : ReadContract read) (hr : withinCap x.br.body x.br.maxSize)
    (hw : withinCap x.bw.body x.bw.maxSize) :
    ∃ y, Next read write x ops = .ok y () := by
  induction ops generalizing x with
  | nil => exact ⟨x, rfl⟩
  | cons op ops ih =>
    obtain ⟨z, h1, hr1, hw1⟩ := Op_run_total read write op x hsrc hr hw
    obtain ⟨y, h2⟩ := ih z hr1 hw1
    exact ⟨y, by simp [Next, h1, h2]⟩

/-- Whatever one action of the handlers does, the events already emitted stay at the head of the
log. -/
theorem Op_run_after_log {ρ σ γ ε : Type} (read : ρ → Slice → ρ × Slice × Int × Option ε)
    (write : σ → Slice → σ × Int × Option ε) (op : Op ρ σ) (x : Exchange ρ σ γ) :
    ∃ l, (op.run read write x).after.log = x.log ++ l := by
  cases op with
  | read b =>
    unfold Op.run
    cases h2 : bodyReader.Read read x.br b with
    | panic r => exact ⟨[], by simp [h2, Outcome.after]⟩
    | ok r o => exact ⟨[], by simp [h2, Outcome.after]⟩
  | write b =>
    unfold Op.run
    cases h2 : bodyWriter.Write write x.bw b with
    | panic r => exact ⟨[], by simp [h2, Outcome.after]⟩
    | ok r o => exact ⟨[], by simp [h2, Outcome.after]⟩
  | source f => exact ⟨[], by simp [Op.run, Outcome.after]⟩
  | sink f => exact ⟨[], by simp [Op.run, Outcome.after]⟩
  | header f => exact ⟨[], by simp [Op.run, Outcome.after]⟩
  | status code => exact ⟨[], by simp [Op.run, Outcome.after]⟩
  | error msg => exact ⟨[], by simp [Op.run, Outcome.after]⟩
  | log r => exact ⟨[r], by simp [Op.run, Outcome.after]⟩

theorem Next_after_log {ρ σ γ ε : Type} (read : ρ → Slice → ρ × Slice × Int × Option ε)
    (write : σ → Slice → σ × Int × Option ε) (ops : List (Op ρ σ)) (x : Exchange ρ σ γ) :
    ∃ l, (Next read write x ops).after.log = x.log ++ l := by
  induction ops generalizing x with
  | nil => exact ⟨[], by simp [Next, Outcome.after]⟩
  | cons op ops ih =>
    obtain ⟨l1, h1⟩ := Op_run_after_log read write op x
    unfold Next
    cases h2 : op.run read write x with
    | panic z =>
      rw [h2] at h1
      exact ⟨l1, by simpa [Outcome.after] using h1⟩
    | ok z u =>
      rw [h2] at h1
      simp only [Outcome.after] at h1
      obtain ⟨l2, h3⟩ := ih z
      exact ⟨l1 ++ l2, by simp only [h3, h1, List.append_assoc]⟩

/-- What a returning run of the middleware did: the handlers ran from the state the middleware
prepared, and the log is the request event, the events of the handlers, and one completion
event whose level and message follow the status the handlers left. -/
theorem LoggingMiddleware_returns {ρ σ γ ε : Type}
    (read : ρ → Slice → ρ × Slice × Int × Option ε)
    (write : σ → Slice → σ × Int × Option ε) (uuidNew : γ → String × γ)
    (ErrorsString : List String → String) (maxRequest maxResponse : Int)
    (logger : Logger) (start finish : Int) (request : Request) (body : ρ) (writer : σ)
    (responseHeader : Header) (status : Int) (errors : List String) (gen : γ)
    (next : List (Op ρ σ)) (y : Exchange ρ σ γ)
    (h : LoggingMiddleware read write uuidNew ErrorsString maxRequest maxResponse logger start
      finish request body writer responseHeader status errors gen next = .ok y ()) :
    ∃ (x : Exchange ρ σ γ) (level : Int) (msg : String),
      Next read write
          { br := newBodyReader body maxRequest true,
            bw := newBodyWriter writer maxResponse true,
            responseHeader :=
              (LoggingMiddleware.requestID uuidNew gen request.Header responseHeader).2.1,
            status := status,
            errors := errors,
            gen := (LoggingMiddleware.requestID uuidNew gen request.Header responseHeader).2.2,
            log := [requestEvent logger start request
              (LoggingMiddleware.requestID uuidNew gen request.Header responseHeader).1] }
          next = .ok x () ∧
        y = { x with
              log := (requestEvent logger start request
                  (LoggingMiddleware.requestID uuidNew gen request.Header responseHeader).1
                :: handlerLog next ++
                [completionEvent logger start finish
                  (LoggingMiddleware.requestID uuidNew gen request.Header responseHeader).1
                  x.status x.responseHeader (bodyString x.bw.body) level msg]) } ∧
        ((400 ≤ x.status ∧ x.status < 500 ∧ level = 4 ∧
            msg = "Request failed with error: " ++ ErrorsString x.errors) ∨
          (500 ≤ x.status ∧ level = 8 ∧
            msg = "Request failed with error: " ++ ErrorsString x.errors) ∨
          (x.status < 400 ∧ level = 0 ∧ msg = "Request completed")) := by
  unfold LoggingMiddleware at h
  simp only at h
  split at h
  · cases h
  · rename_i x u hnext
    have hnext1 : Next read write
        { br := newBodyReader body maxRequest true,
          bw := newBodyWriter writer maxResponse true,
          responseHeader :=
            (LoggingMiddleware.requestID uuidNew gen request.Header responseHeader).2.1,
          status := status,
          errors := errors,
          gen := (LoggingMiddleware.requestID uuidNew gen request.Header responseHeader).2.2,
          log := [requestEvent logger start request
            (LoggingMiddleware.requestID uuidNew gen request.Header responseHeader).1] }
        next = .ok x () := hnext
    have hlog := (Next_returns read write next _ x hnext1).1
    simp only [List.singleton_append] at hlog
    by_cases h4 : x.status ≥ StatusBadRequest ∧ x.status < StatusInternalServerError
    · rw [if_pos h4] at h
      simp only [Outcome.ok.injEq, and_true] at h
      refine ⟨x, 4, _, hnext1, ?_, Or.inl ⟨h4.1, h4.2, rfl, rfl⟩⟩
      rw [← h, hlog]
      rfl
    · rw [if_neg h4] at h
      by_cases h5 : x.status ≥ StatusInternalServerError
      · rw [if_pos h5] at h
        simp only [Outcome.ok.injEq, and_true] at h
        refine ⟨x, 8, _, hnext1, ?_, Or.inr (Or.inl ⟨h5, rfl, rfl⟩)⟩
        rw [← h, hlog]
        rfl
      · rw [if_neg h5] at h
        simp only [Outcome.ok.injEq, and_true] at h
        have h6 : x.status < 400 := by
          unfold StatusBadRequest StatusInternalServerError at h4
          unfold StatusInternalServerError at h5
          omega
        refine ⟨x, 0, _, hnext1, ?_, Or.inr (Or.inr ⟨h6, rfl, rfl⟩)⟩
        rw [← h, hlog]
        rfl

/-- The middleware returns whenever both caps are `≥ 0` and the request body honours the
contract of `io.Reader`. -/
theorem LoggingMiddleware_total {ρ σ γ ε : Type}
    (read : ρ → Slice → ρ × Slice × Int × Option ε)
    (write : σ → Slice → σ × Int × Option ε) (uuidNew : γ → String × γ)
    (ErrorsString : List String → String) (maxRequest maxResponse : Int)
    (logger : Logger) (start finish : Int) (request : Request) (body : ρ) (writer : σ)
    (responseHeader : Header) (status : Int) (errors : List String) (gen : γ)
    (next : List (Op ρ σ)) (hsrc : ReadContract read) (hreq : 0 ≤ maxRequest)
    (hresp : 0 ≤ maxResponse) :
    ∃ y, LoggingMiddleware read write uuidNew ErrorsString maxRequest maxResponse logger start
      finish request body writer responseHeader status errors gen next = .ok y () := by
  obtain ⟨x, hx⟩ := Next_total read write next
    ({ br := newBodyReader body maxRequest true,
       bw := newBodyWriter writer maxResponse true,
       responseHeader :=
         (LoggingMiddleware.requestID uuidNew gen request.Header responseHeader).2.1,
       status := status,
       errors := errors,
       gen := (LoggingMiddleware.requestID uuidNew gen request.Header responseHeader).2.2,
       log := [requestEvent logger start request
         (LoggingMiddleware.requestID uuidNew gen request.Header responseHeader).1] } :
      Exchange ρ σ γ)
    hsrc (newBodyReader_withinCap body maxRequest hreq true)
    (newBodyWriter_withinCap writer maxResponse hresp true)
  have hx1 : Next read write
      { br := newBodyReader body maxRequest true,
        bw := newBodyWriter writer maxResponse true,
        responseHeader :=
          (LoggingMiddleware.requestID uuidNew gen request.Header responseHeader).2.1,
        status := status,
        errors := errors,
        gen := (LoggingMiddleware.requestID uuidNew gen request.Header responseHeader).2.2,
        log := [Logger.LogAttrs logger LevelInfo "Incoming request"
          [.string LogRequestIDKey
            (LoggingMiddleware.requestID uuidNew gen request.Header responseHeader).1,
           .group "request" [
            .time "time" start,
            .string "path" request.Path,
            .string "query" request.RawQuery,
            .string "method" request.Method,
            .string "host" request.Host,
            .string "route" request.FullPath,
            .string "ip" request.ClientIP,
            .string "referer" (request.Header.Get "Referer"),
            .string "user-agent" (request.Header.Get "User-Agent"),
            .params "params" (request.Params.foldl (fun m p => mapSet m p.1 p.2) []),
            .headers "headers" (extractRequestHeaders request.Header),
            .body "body" (bodyString (newBodyReader body maxRequest true).body)]]] }
      next = .ok x () := hx
  unfold LoggingMiddleware
  simp only [hx1]
  split <;> exact ⟨_, rfl⟩

/-! ## The request id on the response -/

theorem lookup_set (h : Header) (k : String) (v : List String) :
    List.lookup k
        (if h.any (fun kv => kv.1 == k) then h.map (fun kv => if kv.1 == k then (k, v) else kv)
          else h ++ [(k, v)])
      = some v := by
  induction h with
  | nil => simp [List.lookup]
  | cons kv h ih =>
    obtain ⟨k1, v1⟩ := kv
    by_cases hk : k1 = k
    · subst hk
      simp [List.lookup]
    · have hne : (k1 == k) = false := by simpa using hk
      have hne1 : (k == k1) = false := by simpa using fun h => hk h.symm
      by_cases hany : h.any (fun kv => kv.1 == k) = true
      · rw [if_pos hany] at ih
        have : (List.any ((k1, v1) :: h) fun kv => kv.1 == k) = true := by
          simp only [List.any_cons, hne, Bool.false_or]
          exact hany
        rw [if_pos this, List.map_cons]
        simp only [hne, Bool.false_eq_true, if_false]
        rw [List.lookup_cons, hne1]
        exact ih
      · rw [if_neg hany] at ih
        have : ¬ (List.any ((k1, v1) :: h) fun kv => kv.1 == k) = true := by
          simp only [List.any_cons, hne, Bool.false_or]
          exact hany
        rw [if_neg this, List.cons_append, List.lookup_cons, hne1]
        exact ih

/-- C11, as stated, fails: for a request with header `X-Request-Id: req-42` and no response
header set, the response headers after the resolution of the id, and after the whole
middleware when the handler leaves the headers alone, hold no `X-Request-Id` at all. -/
theorem inbound_request_id_not_echoed :
    (LoggingMiddleware.requestID listUUID ["u1"] [("X-Request-Id", ["req-42"])] []).1 = "req-42" ∧
      (LoggingMiddleware.requestID listUUID ["u1"] [("X-Request-Id", ["req-42"])] []).2.1 = [] ∧
      (sampleRun [("X-Request-Id", ["req-42"])] 5 [.status 503]).after.responseHeader = [] ∧
      Header.Get [] "X-Request-Id" = "" := by
  decide

/-- C11, amended. After the resolution of the request id: when the id was freshly generated
(`c.GetHeader("X-Request-Id")` is empty), the response headers hold `X-Request-Id` set to the
resolved id; when the id was taken from the inbound header, the resolved id is that value and
the response headers are left exactly as they were. -/
theorem response_header_request_id {γ : Type} (uuidNew : γ → String × γ) (gen : γ)
    (requestHeader responseHeader : Header) (hid : (uuidNew gen).1 ≠ "") :
    (GetHeader requestHeader HeaderRequestIDKey = "" →
        (LoggingMiddleware.requestID uuidNew gen requestHeader responseHeader).1
            = (uuidNew gen).1 ∧
          (LoggingMiddleware.requestID uuidNew gen requestHeader responseHeader).2.1.Get
              "X-Request-Id"
            = (LoggingMiddleware.requestID uuidNew gen requestHeader responseHeader).1) ∧
      (GetHeader requestHeader HeaderRequestIDKey ≠ "" →
        (LoggingMiddleware.requestID uuidNew gen requestHeader responseHeader).1
            = GetHeader requestHeader HeaderRequestIDKey ∧
          (LoggingMiddleware.requestID uuidNew gen requestHeader responseHeader).2.1
            = responseHeader) := by
  constructor
  · intro hget
    unfold LoggingMiddleware.requestID
    simp only [hget]
    refine ⟨rfl, ?_⟩
    have hne : ((uuidNew gen).1 == "") = false := by simpa using hid
    simp only [BEq.refl, if_true, ginHeader, hne, Bool.false_eq_true, if_false]
    unfold Header.Get Header.Set
    rw [canonical_request_id_key]
    have hcan : CanonicalMIMEHeaderKey "X-Request-Id" = "X-Request-Id" := by decide
    rw [hcan]
    simp only [lookup_set]
  · intro hget
    unfold LoggingMiddleware.requestID
    simp only
    rw [if_neg (by simpa using hget)]
    exact ⟨rfl, rfl⟩

theorem response_header_request_id_witness :
    (listUUID ["u1"]).1 ≠ "" ∧
      (GetHeader [("Accept", ["*/*"])] HeaderRequestIDKey = "" →
        (LoggingMiddleware.requestID listUUID ["u1"] [("Accept", ["*/*"])]
            [("Vary", ["Origin"])]).1 = (listUUID ["u1"]).1 ∧
          (LoggingMiddleware.requestID listUUID ["u1"] [("Accept", ["*/*"])]
              [("Vary", ["Origin"])]).2.1.Get "X-Request-Id"
            = (LoggingMiddleware.requestID listUUID ["u1"] [("Accept", ["*/*"])]
                [("Vary", ["Origin"])]).1) ∧
      (GetHeader [("X-Request-Id", ["req-42"])] HeaderRequestIDKey ≠ "" →
        (LoggingMiddleware.requestID listUUID ["u1"] [("X-Request-Id", ["req-42"])]
            [("Vary", ["Origin"])]).1 = GetHeader [("X-Request-Id", ["req-42"])] HeaderRequestIDKey ∧
          (LoggingMiddleware.requestID listUUID ["u1"] [("X-Request-Id", ["req-42"])]
              [("Vary", ["Origin"])]).2.1 = [("Vary", ["Origin"])]) :=
  ⟨by decide,
    (response_header_request_id listUUID ["u1"] [("Accept", ["*/*"])] [("Vary", ["Origin"])]
      (by decide)).1,
    (response_header_request_id listUUID ["u1"] [("X-Request-Id", ["req-42"])]
      [("Vary", ["Origin"])] (by decide)).2⟩

theorem bytesSource_contract : ReadContract bytesSource := by
  intro s b
  simp only [bytesSource, Slice.len, List.length_append, List.length_take, List.length_drop]
  omega

theorem getLast_cons_append (a c : Record) (l : List Record) :
    (a :: l ++ [c]).getLast? = some c := by
  exact List.getLast?_concat (a :: l)

theorem failed_ne_completed (s : String) :
    "Request failed with error: " ++ s ≠ "Request completed" := by
  intro h
  have h1 := congrArg (fun t => t.data.get? 8) h
  simp [String.data_append] at h1

/-! ## Severity of the completion event -/

/-- C12. Whenever the middleware returns, the level of the completion event, the last event it
emits, is `Warn` if the final status `s` satisfies `400 ≤ s < 500`, `Error` if `s ≥ 500`, and
`Info` for every other `s`; the middleware does return whenever the caps are `≥ 0` and the
request body honours the contract of `io.Reader`. -/
theorem completion_severity {ρ σ γ ε : Type}
    (read : ρ → Slice → ρ × Slice × Int × Option ε)
    (write : σ → Slice → σ × Int × Option ε) (uuidNew : γ → String × γ)
    (ErrorsString : List String → String) (maxRequest maxResponse : Int)
    (logger : Logger) (start finish : Int) (request : Request) (body : ρ) (writer : σ)
    (responseHeader : Header) (status : Int) (errors : List String) (gen : γ)
    (next : List (Op ρ σ)) :
    (∀ y, LoggingMiddleware read write uuidNew ErrorsString maxRequest maxResponse logger
        start finish request body writer responseHeader status errors gen next = .ok y () →
        y.log.getLast?.map Record.Level
          = some (if 400 ≤ y.status ∧ y.status < 500 then LevelWarn
              else if 500 ≤ y.status then LevelError else LevelInfo)) ∧
      (ReadContract read → 0 ≤ maxRequest → 0 ≤ maxResponse →
        ∃ y, LoggingMiddleware read write uuidNew ErrorsString maxRequest maxResponse logger
        start finish request body writer responseHeader status errors gen next = .ok y ()) := by
  refine ⟨?_, fun hsrc hreq hresp => LoggingMiddleware_total read write uuidNew ErrorsString maxRequest maxResponse logger
      start finish request body writer responseHeader status errors gen next hsrc hreq hresp⟩
  intro y h
  obtain ⟨x, level, msg, -, hy, hcases⟩ := LoggingMiddleware_returns read write uuidNew ErrorsString maxRequest maxResponse logger
      start finish request body writer responseHeader status errors gen next y h
  subst hy
  simp only [getLast_cons_append, Option.map_some', completionEvent, Option.some.injEq]
  rcases hcases with ⟨h1, h2, h3, -⟩ | ⟨h1, h3, -⟩ | ⟨h1, h3, -⟩
  · rw [if_pos ⟨h1, h2⟩, h3]; rfl
  · rw [if_neg (by omega), if_pos h1, h3]; rfl
  · rw [if_neg (by omega), if_neg (by omega), h3]; rfl

theorem completion_severity_witness :
    (sampleRun [] 5 [.status 200]).after.log.getLast?.map Record.Level = some 0 ∧
      (sampleRun [] 5 [.status 201]).after.log.getLast?.map Record.Level = some 0 ∧
      (sampleRun [] 5 [.status 404]).after.log.getLast?.map Record.Level = some 4 ∧
      (sampleRun [] 5 [.status 500]).after.log.getLast?.map Record.Level = some 8 ∧
      (sampleRun [] 5 [.status 503]).after.log.getLast?.map Record.Level = some 8 ∧
      ∃ y, sampleRun [] 5 [.status 503] = .ok y () :=
  ⟨((completion_severity bytesSource fullSink listUUID errorLines 5 5 ⟨[]⟩ 10 20
      (sampleRequest []) [1, 2, 3, 4, 5, 6, 7, 8, 9, 10] [] [] 200 [] ["u1"] [.status 200]).1
      (sampleRun [] 5 [.status 200]).after (by decide)).trans (by decide),
    ((completion_severity bytesSource fullSink listUUID errorLines 5 5 ⟨[]⟩ 10 20
      (sampleRequest []) [1, 2, 3, 4, 5, 6, 7, 8, 9, 10] [] [] 200 [] ["u1"] [.status 201]).1
      (sampleRun [] 5 [.status 201]).after (by decide)).trans (by decide),
    ((completion_severity bytesSource fullSink listUUID errorLines 5 5 ⟨[]⟩ 10 20
      (sampleRequest []) [1, 2, 3, 4, 5, 6, 7, 8, 9, 10] [] [] 200 [] ["u1"] [.status 404]).1
      (sampleRun [] 5 [.status 404]).after (by decide)).trans (by decide),
    ((completion_severity bytesSource fullSink listUUID errorLines 5 5 ⟨[]⟩ 10 20
      (sampleRequest []) [1, 2, 3, 4, 5, 6, 7, 8, 9, 10] [] [] 200 [] ["u1"] [.status 500]).1
      (sampleRun [] 5 [.status 500]).after (by decide)).trans (by decide),
    ((completion_severity bytesSource fullSink listUUID errorLines 5 5 ⟨[]⟩ 10 20
      (sampleRequest []) [1, 2, 3, 4, 5, 6, 7, 8, 9, 10] [] [] 200 [] ["u1"] [.status 503]).1
      (sampleRun [] 5 [.status 503]).after (by decide)).trans (by decide),
    (completion_severity bytesSource fullSink listUUID errorLines 5 5 ⟨[]⟩ 10 20
      (sampleRequest []) [1, 2, 3, 4, 5, 6, 7, 8, 9, 10] [] [] 200 [] ["u1"] [.status 503]).2
      bytesSource_contract (by decide) (by decide)⟩

/-! ## The request id in the two events -/

/-- C13. Whenever the middleware returns, its log starts with the request event and ends with
the completion event; the request event has the attribute `req_id` with the resolved request id,
and the completion event was emitted through the logger of the request event bound, by `With`,
with `req_id` set to that same id. -/
theorem events_share_request_id {ρ σ γ ε : Type}
    (read : ρ → Slice → ρ × Slice × Int × Option ε)
    (write : σ → Slice → σ × Int × Option ε) (uuidNew : γ → String × γ)
    (ErrorsString : List String → String) (maxRequest maxResponse : Int)
    (logger : Logger) (start finish : Int) (request : Request) (body : ρ) (writer : σ)
    (responseHeader : Header) (status : Int) (errors : List String) (gen : γ)
    (next : List (Op ρ σ)) :
    (∀ y, LoggingMiddleware read write uuidNew ErrorsString maxRequest maxResponse logger
        start finish request body writer responseHeader status errors gen next = .ok y () →
        ∃ (incoming completion : Record) (between : List Record),
          y.log = incoming :: between ++ [completion] ∧
            incoming.bound = logger.bound ∧
            LogAttr.string "req_id" (LoggingMiddleware.requestID uuidNew gen request.Header responseHeader).1 ∈ incoming.attrs ∧
            completion.bound = logger.bound ++ [LogAttr.string "req_id" (LoggingMiddleware.requestID uuidNew gen request.Header responseHeader).1]) ∧
      (ReadContract read → 0 ≤ maxRequest → 0 ≤ maxResponse →
        ∃ y, LoggingMiddleware read write uuidNew ErrorsString maxRequest maxResponse logger
        start finish request body writer responseHeader status errors gen next = .ok y ()) := by
  refine ⟨?_, fun hsrc hreq hresp => LoggingMiddleware_total read write uuidNew ErrorsString maxRequest maxResponse logger
      start finish request body writer responseHeader status errors gen next hsrc hreq hresp⟩
  intro y h
  obtain ⟨x, level, msg, -, hy, -⟩ := LoggingMiddleware_returns read write uuidNew ErrorsString maxRequest maxResponse logger
      start finish request body writer responseHeader status errors gen next y h
  subst hy
  exact ⟨_, _, _, rfl, rfl, by simp [requestEvent], rfl⟩

theorem events_share_request_id_witness :
    ∃ (incoming completion : Record) (between : List Record),
      (sampleRun [("X-Request-Id", ["req-42"])] 5 [.status 503]).after.log
          = incoming :: between ++ [completion] ∧
        incoming.bound = [] ∧
        LogAttr.string "req_id" "req-42" ∈ incoming.attrs ∧
        completion.bound = [] ++ [LogAttr.string "req_id" "req-42"] :=
  (events_share_request_id bytesSource fullSink listUUID errorLines 5 5 ⟨[]⟩ 10 20
      (sampleRequest [("X-Request-Id", ["req-42"])]) [1, 2, 3, 4, 5, 6, 7, 8, 9, 10] [] [] 200 [] ["u1"] [.status 503]).1
    (sampleRun [("X-Request-Id", ["req-42"])] 5 [.status 503]).after (by decide)

/-! ## The logged request body -/

/-- C14 does not hold of the code. In every run of the middleware, returning or not, the first
event of the log is the request event and its `body` attribute is empty, whatever the request
body and the cap: the attribute is read from the capture buffer before the handlers have read
anything through the new `bodyReader`.  A returning run ends with the completion event, which
has no request body.  For the ten-byte body `1 … 10` with cap 5 and a handler that reads the
whole body, the events carry the request bodies `""` and none, while the capture buffer ends up
holding `1 … 5`. -/
theorem request_body_logged_empty {ρ σ γ ε : Type}
    (read : ρ → Slice → ρ × Slice × Int × Option ε)
    (write : σ → Slice → σ × Int × Option ε) (uuidNew : γ → String × γ)
    (ErrorsString : List String → String) (maxRequest maxResponse : Int)
    (logger : Logger) (start finish : Int) (request : Request) (body : ρ) (writer : σ)
    (responseHeader : Header) (status : Int) (errors : List String) (gen : γ)
    (next : List (Op ρ σ)) :
    (∃ later, (LoggingMiddleware read write uuidNew ErrorsString maxRequest maxResponse logger
        start finish request body writer responseHeader status errors gen next).after.log
        = requestEvent logger start request (LoggingMiddleware.requestID uuidNew gen request.Header responseHeader).1 :: later) ∧
      (requestEvent logger start request (LoggingMiddleware.requestID uuidNew gen request.Header responseHeader).1).body "request" = some [] ∧
      (∀ y, LoggingMiddleware read write uuidNew ErrorsString maxRequest maxResponse logger
        start finish request body writer responseHeader status errors gen next = .ok y () →
        (y.log.getLast?.bind (fun r => r.body "request")) = none) ∧
      (sampleRun [] 5 [.read (Slice.ofList [0, 0, 0, 0, 0, 0, 0, 0, 0, 0, 0, 0])]).after.log.map (fun r => r.body "request") = [some [], none] ∧
      (sampleRun [] 5 [.read (Slice.ofList [0, 0, 0, 0, 0, 0, 0, 0, 0, 0, 0, 0])]).after.br.body = some ⟨[1, 2, 3, 4, 5]⟩ := by
  refine ⟨?_, rfl, ?_, by decide, by decide⟩
  · unfold LoggingMiddleware
    simp only
    split
    · rename_i x hnext
      obtain ⟨l, hl⟩ := Next_after_log read write next
        ({ br := newBodyReader body maxRequest true,
           bw := newBodyWriter writer maxResponse true,
           responseHeader :=
             (LoggingMiddleware.requestID uuidNew gen request.Header responseHeader).2.1,
           status := status,
           errors := errors,
           gen := (LoggingMiddleware.requestID uuidNew gen request.Header responseHeader).2.2,
           log := [requestEvent logger start request (LoggingMiddleware.requestID uuidNew gen request.Header responseHeader).1] } : Exchange ρ σ γ)
      have hnext1 : Next read write
          ({ br := newBodyReader body maxRequest true,
             bw := newBodyWriter writer maxResponse true,
             responseHeader :=
               (LoggingMiddleware.requestID uuidNew gen request.Header responseHeader).2.1,
             status := status,
             errors := errors,
             gen := (LoggingMiddleware.requestID uuidNew gen request.Header responseHeader).2.2,
             log := [requestEvent logger start request (LoggingMiddleware.requestID uuidNew gen request.Header responseHeader).1] } : Exchange ρ σ γ)
          next = .panic x := hnext
      rw [hnext1] at hl
      exact ⟨l, by simpa [Outcome.after] using hl⟩
    · rename_i x u hnext
      obtain ⟨l, hl⟩ := Next_after_log read write next
        ({ br := newBodyReader body maxRequest true,
           bw := newBodyWriter writer maxResponse true,
           responseHeader :=
             (LoggingMiddleware.requestID uuidNew gen request.Header responseHeader).2.1,
           status := status,
           errors := errors,
           gen := (LoggingMiddleware.requestID uuidNew gen request.Header responseHeader).2.2,
           log := [requestEvent logger start request (LoggingMiddleware.requestID uuidNew gen request.Header responseHeader).1] } : Exchange ρ σ γ)
      have hnext1 : Next read write
          ({ br := newBodyReader body maxRequest true,
             bw := newBodyWriter writer maxResponse true,
             responseHeader :=
               (LoggingMiddleware.requestID uuidNew gen request.Header responseHeader).2.1,
             status := status,
             errors := errors,
             gen := (LoggingMiddleware.requestID uuidNew gen request.Header responseHeader).2.2,
             log := [requestEvent logger start request (LoggingMiddleware.requestID uuidNew gen request.Header responseHeader).1] } : Exchange ρ σ γ)
          next = .ok x u := hnext
      rw [hnext1] at hl
      simp only [Outcome.after] at hl
      split
      all_goals
        simp only [Outcome.after, hl, List.singleton_append, List.cons_append]
        exact ⟨_, rfl⟩
  · intro y h
    obtain ⟨x, level, msg, -, hy, -⟩ := LoggingMiddleware_returns read write uuidNew ErrorsString maxRequest maxResponse logger
      start finish request body writer responseHeader status errors gen next y h
    subst hy
    simp only [getLast_cons_append, Option.some_bind]
    rfl

/-! ## Message of the completion event -/

/-- C17. Whenever the middleware returns, the message of the completion event is
`Request completed` if and only if its level is `Info`, which is the case if and only if the
final status is below 400; for every status `≥ 400` the message is `Request failed with error: `
followed by `c.Errors.String()`.  The middleware does return whenever the caps are `≥ 0` and the
request body honours the contract of `io.Reader`. -/
theorem completion_message {ρ σ γ ε : Type}
    (read : ρ → Slice → ρ × Slice × Int × Option ε)
    (write : σ → Slice → σ × Int × Option ε) (uuidNew : γ → String × γ)
    (ErrorsString : List String → String) (maxRequest maxResponse : Int)
    (logger : Logger) (start finish : Int) (request : Request) (body : ρ) (writer : σ)
    (responseHeader : Header) (status : Int) (errors : List String) (gen : γ)
    (next : List (Op ρ σ)) :
    (∀ y, LoggingMiddleware read write uuidNew ErrorsString maxRequest maxResponse logger
        start finish request body writer responseHeader status errors gen next = .ok y () →
        ∃ completion, y.log.getLast? = some completion ∧
          (completion.Message = "Request completed" ↔ completion.Level = LevelInfo) ∧
          (completion.Level = LevelInfo ↔ y.status < 400) ∧
          (400 ≤ y.status →
            completion.Message = "Request failed with error: " ++ ErrorsString y.errors)) ∧
      (ReadContract read → 0 ≤ maxRequest → 0 ≤ maxResponse →
        ∃ y, LoggingMiddleware read write uuidNew ErrorsString maxRequest maxResponse logger
        start finish request body writer responseHeader status errors gen next = .ok y ()) := by
  refine ⟨?_, fun hsrc hreq hresp => LoggingMiddleware_total read write uuidNew ErrorsString maxRequest maxResponse logger
      start finish request body writer responseHeader status errors gen next hsrc hreq hresp⟩
  intro y h
  obtain ⟨x, level, msg, -, hy, hcases⟩ := LoggingMiddleware_returns read write uuidNew ErrorsString maxRequest maxResponse logger
      start finish request body writer responseHeader status errors gen next y h
  subst hy
  refine ⟨_, getLast_cons_append _ _ _, ?_⟩
  simp only [completionEvent, LevelInfo]
  rcases hcases with ⟨h1, h2, h3, h4⟩ | ⟨h1, h3, h4⟩ | ⟨h1, h3, h4⟩
  · subst h3 h4
    refine ⟨⟨fun hm => absurd hm (failed_ne_completed _), fun hl => by omega⟩,
      ⟨fun hl => by omega, fun hs => by omega⟩, fun _ => rfl⟩
  · subst h3 h4
    refine ⟨⟨fun hm => absurd hm (failed_ne_completed _), fun hl => by omega⟩,
      ⟨fun hl => by omega, fun hs => by omega⟩, fun _ => rfl⟩
  · subst h3 h4
    exact ⟨⟨fun _ => rfl, fun _ => rfl⟩, ⟨fun _ => h1, fun _ => rfl⟩, fun hs => by omega⟩

theorem completion_message_witness :
    (∃ completion,
        (sampleRun [] 5 [.error "boom", .status 404]).after.log.getLast? = some completion ∧
          (completion.Message = "Request completed" ↔ completion.Level = LevelInfo) ∧
          (completion.Level = LevelInfo
            ↔ (sampleRun [] 5 [.error "boom", .status 404]).after.status < 400) ∧
          (400 ≤ (sampleRun [] 5 [.error "boom", .status 404]).after.status →
            completion.Message = "Request failed with error: "
              ++ errorLines (sampleRun [] 5 [.error "boom", .status 404]).after.errors)) ∧
      (sampleRun [] 5 [.error "boom", .status 404]).after.log.getLast?.map Record.Message
        = some "Request failed with error: Error: boom\n" ∧
      (sampleRun [] 5 [.status 200]).after.log.getLast?.map Record.Message
        = some "Request completed" :=
  ⟨(completion_message bytesSource fullSink listUUID errorLines 5 5 ⟨[]⟩ 10 20
      (sampleRequest []) [1, 2, 3, 4, 5, 6, 7, 8, 9, 10] [] [] 200 [] ["u1"] [.error "boom", .status 404]).1
      (sampleRun [] 5 [.error "boom", .status 404]).after (by decide),
    by decide, by decide⟩

/-! ## Order of the events -/

/-- C18. Whenever the handlers return normally, so that the middleware returns, the events
emitted during the request are, in this order: the request event, at level `Info`, with the
group `request`, a function of the request and the logger alone; the events the handlers emit
themselves; one completion event with the group `response`.  Nothing follows the completion
event.  The handlers do return normally, and the middleware returns, whenever the caps are `≥ 0`
and the request body honours the contract of `io.Reader`. -/
theorem two_events_in_order {ρ σ γ ε : Type}
    (read : ρ → Slice → ρ × Slice × Int × Option ε)
    (write : σ → Slice → σ × Int × Option ε) (uuidNew : γ → String × γ)
    (ErrorsString : List String → String) (maxRequest maxResponse : Int)
    (logger : Logger) (start finish : Int) (request : Request) (body : ρ) (writer : σ)
    (responseHeader : Header) (status : Int) (errors : List String) (gen : γ)
    (next : List (Op ρ σ)) :
    (∀ y, LoggingMiddleware read write uuidNew ErrorsString maxRequest maxResponse logger
        start finish request body writer responseHeader status errors gen next = .ok y () →
        ∃ completion,
          y.log = requestEvent logger start request (LoggingMiddleware.requestID uuidNew gen request.Header responseHeader).1
            :: handlerLog next ++ [completion] ∧
          (requestEvent logger start request (LoggingMiddleware.requestID uuidNew gen request.Header responseHeader).1).Level = LevelInfo ∧
          (∃ fields, (requestEvent logger start request (LoggingMiddleware.requestID uuidNew gen request.Header responseHeader).1).attrs
            = [.string "req_id" (LoggingMiddleware.requestID uuidNew gen request.Header responseHeader).1, .group "request" fields]) ∧
          (∃ fields, completion.attrs = [.group "response" fields])) ∧
      (ReadContract read → 0 ≤ maxRequest → 0 ≤ maxResponse →
        ∃ y, LoggingMiddleware read write uuidNew ErrorsString maxRequest maxResponse logger
        start finish request body writer responseHeader status errors gen next = .ok y ()) := by
  refine ⟨?_, fun hsrc hreq hresp => LoggingMiddleware_total read write uuidNew ErrorsString maxRequest maxResponse logger
      start finish request body writer responseHeader status errors gen next hsrc hreq hresp⟩
  intro y h
  obtain ⟨x, level, msg, -, hy, -⟩ := LoggingMiddleware_returns read write uuidNew ErrorsString maxRequest maxResponse logger
      start finish request body writer responseHeader status errors gen next y h
  subst hy
  exact ⟨_, rfl, rfl, ⟨_, rfl⟩, ⟨_, rfl⟩⟩

theorem two_events_in_order_witness :
    (∃ completion,
        (sampleRun [] 5 [.log ⟨0, "handling", [], []⟩, .status 503]).after.log
          = requestEvent ⟨[]⟩ 10 (sampleRequest [])
              (LoggingMiddleware.requestID listUUID ["u1"] (sampleRequest []).Header []).1
            :: handlerLog ([.log ⟨0, "handling", [], []⟩, .status 503] :
                List (Op (List Byte) (List Byte))) ++ [completion] ∧
          (requestEvent ⟨[]⟩ 10 (sampleRequest [])
            (LoggingMiddleware.requestID listUUID ["u1"] (sampleRequest []).Header []).1).Level
            = LevelInfo ∧
          (∃ fields, (requestEvent ⟨[]⟩ 10 (sampleRequest [])
              (LoggingMiddleware.requestID listUUID ["u1"] (sampleRequest []).Header []).1).attrs
            = [.string "req_id"
                (LoggingMiddleware.requestID listUUID ["u1"] (sampleRequest []).Header []).1,
               .group "request" fields]) ∧
          (∃ fields, completion.attrs = [.group "response" fields])) ∧
      (sampleRun [] 5 [.log ⟨0, "handling", [], []⟩, .status 503]).after.log.map
          (fun r => (r.Level, r.Message))
        = [(0, "Incoming request"), (0, "handling"), (8, "Request failed with error: ")] ∧
      ∃ y, sampleRun [] 5 [.log ⟨0, "handling", [], []⟩, .status 503] = .ok y () :=
  ⟨(two_events_in_order bytesSource fullSink listUUID errorLines 5 5 ⟨[]⟩ 10 20
      (sampleRequest []) [1, 2, 3, 4, 5, 6, 7, 8, 9, 10] [] [] 200 [] ["u1"] [.log ⟨0, "handling", [], []⟩, .status 503]).1
      (sampleRun [] 5 [.log ⟨0, "handling", [], []⟩, .status 503]).after (by decide),
    by decide,
    (two_events_in_order bytesSource fullSink listUUID errorLines 5 5 ⟨[]⟩ 10 20
      (sampleRequest []) [1, 2, 3, 4, 5, 6, 7, 8, 9, 10] [] [] 200 [] ["u1"] [.log ⟨0, "handling", [], []⟩, .status 503]).2
      bytesSource_contract (by decide) (by decide)⟩

/-! ## Budget of a single call -/

theorem capture_budget (buf d : List Byte) (m k : Int) (hk : k = d.length)
    (h : (buf.length : Int) ≤ m) :
    (buf ++ d).take m.toNat = buf ++ d.take (min (m - buf.length) k).toNat := by
  rw [← take_split buf d m h]
  congr 1
  rcases le_total (m - buf.length) k with hle | hle
  · rw [min_eq_left hle]
  · rw [min_eq_right hle, List.take_of_length_le (by omega), List.take_of_length_le (by omega)]

theorem upTo_negative (b : Slice) (k : Int) (hk : k < 0) : b.upTo k = none := by
  unfold Slice.upTo
  rw [if_neg (by omega)]

/-- C15. For every capture buffer of length `L ≤ m` (so `m ≥ 0`) and every chunk `c` of `k`
bytes: one `Write(c)` returns and leaves the buffer equal to the old buffer followed by the first
`min(m - L, k)` bytes of `c` — nothing when `m - L = 0`, the first `k - 1` bytes when
`m - L = k - 1`, the whole chunk when `m - L = k`; and one `Read` whose source delivers `n` bytes
with `0 ≤ n ≤ len(b)` returns and leaves the buffer equal to the old buffer followed by the first
`min(m - L, n)` of the delivered bytes. -/
theorem single_call_budget {σ ρ ε : Type}
    (write : σ → Slice → σ × Int × Option ε) (w : bodyWriter σ) (buf : Buffer)
    (hb : w.body = some buf) (hL : buf.Len ≤ w.maxSize) (c : Slice)
    (read : ρ → Slice → ρ × Slice × Int × Option ε) (r : bodyReader ρ) (rbuf : Buffer)
    (hrb : r.body = some rbuf) (hrL : rbuf.Len ≤ r.maxSize) (p : Slice)
    (h0 : 0 ≤ (read r.ReadCloser p).2.2.1)
    (hn : (read r.ReadCloser p).2.2.1 ≤ (read r.ReadCloser p).2.1.len) :
    (∃ w1, bodyWriter.Write write w c = .ok w1 (write w.ResponseWriter c).2 ∧
      w1.body = some ⟨buf.data ++ c.elems.take (min (w.maxSize - buf.Len) c.len).toNat⟩ ∧
      (w.maxSize - buf.Len = 0 → w1.body = some buf) ∧
      (w.maxSize - buf.Len = c.len - 1 →
        w1.body = some ⟨buf.data ++ c.elems.take (c.elems.length - 1)⟩) ∧
      (w.maxSize - buf.Len = c.len → w1.body = some ⟨buf.data ++ c.elems⟩)) ∧
    (∃ r1, bodyReader.Read read r p = .ok r1 (read r.ReadCloser p).2 ∧
      r1.body = some ⟨rbuf.data ++ (delivered (read r.ReadCloser p).2).take
        (min (r.maxSize - rbuf.Len) (read r.ReadCloser p).2.2.1).toNat⟩) := by
  constructor
  · refine ⟨_, Write_recording write w c buf hb hL, ?_⟩
    have hbudget := capture_budget buf.data c.elems w.maxSize c.len rfl hL
    unfold Buffer.Len at hL ⊢
    simp only [hbudget]
    refine ⟨trivial, ?_, ?_, ?_⟩
    · intro hrem
      rw [hrem, min_eq_left (by unfold Slice.len; omega)]
      simp
    · intro hrem
      have hk : c.len = c.elems.length := rfl
      rw [hrem, min_eq_left (by omega)]
      have : (c.len - 1).toNat = c.elems.length - 1 := by omega
      rw [this]
    · intro hrem
      have hk : c.len = c.elems.length := rfl
      rw [hrem, min_self, List.take_of_length_le (by omega)]
  · refine ⟨_, Read_recording read r p rbuf hrb hrL h0 hn, ?_⟩
    have hlen : (read r.ReadCloser p).2.2.1 = (delivered (read r.ReadCloser p).2).length := by
      unfold delivered
      unfold Slice.len at hn
      rw [List.length_take]
      omega
    have hbudget := capture_budget rbuf.data (delivered (read r.ReadCloser p).2) r.maxSize
      (read r.ReadCloser p).2.2.1 hlen hrL
    unfold Buffer.Len
    simp only [hbudget]

theorem single_call_budget_witness :
    (∃ w1, bodyWriter.Write fullSink ⟨[], some ⟨[1, 2]⟩, 4, 2⟩ (Slice.ofList [7, 8, 9])
        = .ok w1 (fullSink [] (Slice.ofList [7, 8, 9])).2 ∧
      w1.body = some ⟨[1, 2] ++ [7, 8, 9].take
        (min ((4 : Int) - (⟨[1, 2]⟩ : Buffer).Len) (Slice.ofList [7, 8, 9]).len).toNat⟩ ∧
      ((4 : Int) - (⟨[1, 2]⟩ : Buffer).Len = 0 → w1.body = some ⟨[1, 2]⟩) ∧
      ((4 : Int) - (⟨[1, 2]⟩ : Buffer).Len = (Slice.ofList [7, 8, 9]).len - 1 →
        w1.body = some ⟨[1, 2] ++ [7, 8, 9].take ([7, 8, 9].length - 1)⟩) ∧
      ((4 : Int) - (⟨[1, 2]⟩ : Buffer).Len = (Slice.ofList [7, 8, 9]).len →
        w1.body = some ⟨[1, 2] ++ [7, 8, 9]⟩)) ∧
    (∃ r1, bodyReader.Read bytesSource ⟨[7, 8, 9], some ⟨[1, 2]⟩, 4, 2⟩ (Slice.ofList [0, 0, 0, 0])
        = .ok r1 (bytesSource [7, 8, 9] (Slice.ofList [0, 0, 0, 0])).2 ∧
      r1.body = some ⟨[1, 2] ++ (delivered (bytesSource [7, 8, 9] (Slice.ofList [0, 0, 0, 0])).2).take
        (min ((4 : Int) - (⟨[1, 2]⟩ : Buffer).Len)
          (bytesSource [7, 8, 9] (Slice.ofList [0, 0, 0, 0])).2.2.1).toNat⟩) :=
  single_call_budget fullSink ⟨[], some ⟨[1, 2]⟩, 4, 2⟩ ⟨[1, 2]⟩ rfl (by decide)
    (Slice.ofList [7, 8, 9])
    bytesSource ⟨[7, 8, 9], some ⟨[1, 2]⟩, 4, 2⟩ ⟨[1, 2]⟩ rfl (by decide)
    (Slice.ofList [0, 0, 0, 0]) (by decide) (by decide)

/-! ## What a Write mirrors -/

/-- C16, as stated, fails: the sink accepts one byte of the chunk `1 2 3` and reports
`(1, short write)`, yet the writer, with 10 bytes of budget left, has mirrored all three
bytes. -/
theorem write_mirrors_beyond_written :
    bodyWriter.Write shortSink (newBodyWriter [] 10 true) (Slice.ofList [1, 2, 3])
      = .ok ⟨[1], some ⟨[1, 2, 3]⟩, 10, 3⟩ (1, some "short write") := by
  decide

/-- C16, amended. For every `Write(b)` on a writer whose capture buffer is within the cap, and
every sink: the call mirrors the first `min(remaining, len(b))` bytes of the chunk it was given,
whatever count and error the sink then returns; when the sink reports the whole chunk as
written (`n = len(b)`), these are the first `min(remaining, n)` bytes. -/
theorem write_mirrors_chunk {σ ε : Type}
    (write : σ → Slice → σ × Int × Option ε) (w : bodyWriter σ) (buf : Buffer)
    (hb : w.body = some buf) (hL : buf.Len ≤ w.maxSize) (b : Slice) :
    ∃ w1, bodyWriter.Write write w b = .ok w1 (write w.ResponseWriter b).2 ∧
      w1.body = some ⟨buf.data ++ b.elems.take (min (w.maxSize - buf.Len) b.len).toNat⟩ ∧
      ((write w.ResponseWriter b).2.1 = b.len →
        w1.body = some ⟨buf.data ++ b.elems.take
          (min (w.maxSize - buf.Len) (write w.ResponseWriter b).2.1).toNat⟩) := by
  refine ⟨_, Write_recording write w b buf hb hL, ?_⟩
  have hbudget := capture_budget buf.data b.elems w.maxSize b.len rfl hL
  unfold Buffer.Len
  simp only [hbudget]
  refine ⟨trivial, ?_⟩
  intro hfull
  rw [hfull]

theorem write_mirrors_chunk_witness :
    ∃ w1, bodyWriter.Write shortSink ⟨[], some ⟨[1, 2]⟩, 4, 2⟩ (Slice.ofList [7, 8, 9])
        = .ok w1 (shortSink [] (Slice.ofList [7, 8, 9])).2 ∧
      w1.body = some ⟨[1, 2] ++ [7, 8, 9].take
        (min ((4 : Int) - (⟨[1, 2]⟩ : Buffer).Len) (Slice.ofList [7, 8, 9]).len).toNat⟩ ∧
      ((shortSink [] (Slice.ofList [7, 8, 9])).2.1 = (Slice.ofList [7, 8, 9]).len →
        w1.body = some ⟨[1, 2] ++ [7, 8, 9].take
          (min ((4 : Int) - (⟨[1, 2]⟩ : Buffer).Len)
            (shortSink [] (Slice.ofList [7, 8, 9])).2.1).toNat⟩) :=
  write_mirrors_chunk shortSink ⟨[], some ⟨[1, 2]⟩, 4, 2⟩ ⟨[1, 2]⟩ rfl (by decide)
    (Slice.ofList [7, 8, 9])

/-! ## Negative caps -/

/-- C19. The constructors store whatever cap they are given. For every negative cap: the first
`Write` on a recording writer panics for every chunk, the empty one included, with the writer
and hence the sink exactly as they were; the first `Read` on a recording reader panics for
every count the source returns, with the source in the state its `Read` left it in. -/
theorem negative_cap_first_call_panics {σ ρ ε : Type} (maxSize : Int) (hm : maxSize < 0)
    (write : σ → Slice → σ × Int × Option ε) (sink : σ) (b : Slice)
    (read : ρ → Slice → ρ × Slice × Int × Option ε) (src : ρ) (p : Slice) :
    (newBodyWriter sink maxSize true).maxSize = maxSize ∧
      (newBodyReader src maxSize true).maxSize = maxSize ∧
      bodyWriter.Write write (newBodyWriter sink maxSize true) b
        = .panic (newBodyWriter sink maxSize true) ∧
      bodyWriter.Write write (newBodyWriter sink maxSize true) (Slice.ofList [])
        = .panic (newBodyWriter sink maxSize true) ∧
      (newBodyWriter sink maxSize true).ResponseWriter = sink ∧
      bodyReader.Read read (newBodyReader src maxSize true) p
        = .panic { newBodyReader src maxSize true with ReadCloser := (read src p).1 } := by
  have hw : ∀ c : Slice, bodyWriter.Write write (newBodyWriter sink maxSize true) c
      = .panic (newBodyWriter sink maxSize true) := by
    intro c
    have hgt : (0 : Int) + c.len > maxSize := by unfold Slice.len; omega
    simp only [bodyWriter.Write, newBodyWriter, Buffer.NewBufferString, Buffer.Len,
      List.length_nil, Nat.cast_zero, if_true, if_pos hgt, upTo_negative c (maxSize - 0) (by omega),
      Option.map_none']
  refine ⟨rfl, rfl, hw b, hw _, rfl, ?_⟩
  unfold bodyReader.Read
  rcases hread : read src p with ⟨rc, b1, n, err⟩
  simp only [newBodyReader, Buffer.NewBufferString, Buffer.Len, List.length_nil, Nat.cast_zero,
    if_true, hread]
  by_cases hgt : (0 : Int) + n > maxSize
  · simp only [if_pos hgt, upTo_negative b1 (maxSize - 0) (by omega), Option.map_none']
  · simp only [if_neg hgt, upTo_negative b1 n (by omega), Option.map_none']

theorem negative_cap_first_call_panics_witness :
    (-1 : Int) < 0 ∧
      ((newBodyWriter ([] : List Byte) (-1) true).maxSize = -1 ∧
        (newBodyReader ([7] : List Byte) (-1) true).maxSize = -1 ∧
        bodyWriter.Write fullSink (newBodyWriter [] (-1) true) (Slice.ofList [7])
          = .panic (newBodyWriter [] (-1) true) ∧
        bodyWriter.Write fullSink (newBodyWriter [] (-1) true) (Slice.ofList [])
          = .panic (newBodyWriter [] (-1) true) ∧
        (newBodyWriter ([] : List Byte) (-1) true).ResponseWriter = [] ∧
        bodyReader.Read bytesSource (newBodyReader [7] (-1) true) (Slice.ofList [0])
          = .panic { newBodyReader [7] (-1) true with
              ReadCloser := (bytesSource [7] (Slice.ofList [0])).1 }) :=
  ⟨by decide,
    negative_cap_first_call_panics (-1) (by decide) fullSink [] (Slice.ofList [7])
      bytesSource [7] (Slice.ofList [0])⟩

end Middlewares
